import Mathlib

/-!
Shallow embedding of the HTTP request router of `packages/framework/src/router.ts`
(Deepkit framework).  The router compiles each registered `RouteConfig` into a
matcher (exact string comparison or literal-prefix check plus an anchored
regular expression), a parameter materializer (conversion and validation of
path, query and body parameters), and a URL resolver.  The definitions below
translate the semantics of the generated dispatch code; the runtime
code-generation strings of the source are modelled by the functions the
generated code denotes.
-/

/-- Structured validation error record, mirroring `ValidationErrorItem` of
the rpc package: a code, a message and a dotted path. -/
structure VErrItem where
  code : String
  message : String
  path : String
deriving DecidableEq, Repr

/-- Runtime values flowing through parameter extraction.  `undef` is the
JavaScript `undefined`; `obj` is a plain object as an association list;
`errs` is a `BodyValidation` instance carrying collected errors. -/
inductive Value where
  | undef
  | str (s : String)
  | obj (fields : List (String × Value))
  | errs (es : List VErrItem)
deriving Repr

/-- JavaScript string coercion as performed by template literals and
`encodeURIComponent`: `undefined` prints as "undefined", objects as
"[object Object]". -/
def toJSString : Value → String
  | Value.undef => "undefined"
  | Value.str s => s
  | Value.obj _ => "[object Object]"
  | Value.errs _ => "[object Object]"

/-- ASCII lowercasing of one character (JavaScript `toLowerCase` on the
ASCII method names used here). -/
def charToLower (c : Char) : Char :=
  if 'A' ≤ c ∧ c ≤ 'Z' then Char.ofNat (c.toNat + 32) else c

/-- ASCII string lowercasing (`String.prototype.toLowerCase` restricted to
ASCII). -/
def jsToLower (s : String) : String :=
  String.mk (s.toList.map charToLower)

/-- JavaScript `String.prototype.startsWith`. -/
def strStartsWith (pre s : String) : Bool :=
  pre.toList.isPrefixOf s.toList

/-- Split a character list at every occurrence of a separator character
(`String.prototype.split` with a one-character separator). -/
def splitOnCharAux (c : Char) : List Char → List Char → List (List Char)
  | [], acc => [acc.reverse]
  | d :: rest, acc =>
      if d = c then acc.reverse :: splitOnCharAux c rest []
      else splitOnCharAux c rest (d :: acc)

/-- Split a string at every occurrence of a separator character. -/
def splitOnChar (c : Char) (s : String) : List String :=
  (splitOnCharAux c s.toList []).map String.mk

/-- Property lookup `o[k]` on an object value; absent keys give `undefined`. -/
def objGet : List (String × Value) → String → Value
  | [], _ => Value.undef
  | f :: rest, k => if f.1 = k then f.2 else objGet rest k

/-- Errors a compiled parameter materializer can raise: a `ValidationError`
carrying structured records, or a JavaScript `TypeError` (property access on
`undefined`). -/
inductive DispatchError where
  | validation (errors : List VErrItem)
  | typeError
deriving Repr

/-- JavaScript regex word character, the `\w` class: ASCII letters, digits
and underscore. -/
def isWordChar (c : Char) : Bool :=
  c.isAlpha || c.isDigit || c = '_'

/-- A piece of a route path template: a literal character or a `:name`
parameter token. -/
inductive Seg where
  | lit (c : Char)
  | param (name : String)
deriving DecidableEq, Repr

/-- Tokenization performed by the global regex replace over `:(\w+)` in
`parseRoutePathToRegex` and `getRouteUrlResolveCode`: a colon followed by one
or more word characters forms a parameter token (greedy), all other
characters are literal.  Recursion is by explicit fuel so that the kernel
can evaluate the function. -/
def parseSegsF : Nat → List Char → List Seg
  | 0, _ => []
  | _, [] => []
  | fuel + 1, c :: rest =>
    if c = ':' ∧ rest.takeWhile isWordChar ≠ [] then
      Seg.param (String.mk (rest.takeWhile isWordChar)) :: parseSegsF fuel (rest.dropWhile isWordChar)
    else
      Seg.lit c :: parseSegsF fuel rest

/-- The tokenization of a whole character list; the fuel bound is the list
length, which the fuel-stability lemma below shows to be sufficient (each
step consumes at least one character). -/
def parseSegs (l : List Char) : List Seg :=
  parseSegsF l.length l

/-- The parameter token names of a template, in left-to-right order. -/
def segNames (segs : List Seg) : List String :=
  segs.filterMap fun s => match s with
    | Seg.param n => some n
    | Seg.lit _ => none

/-- Insertion into a JavaScript-object-modelled association list: an existing
key has its value overwritten, a new key is appended. -/
def aListInsert : List (String × Nat) → String → Nat → List (String × Nat)
  | [], k, v => [(k, v)]
  | f :: rest, k, v =>
      if f.1 = k then (f.1, v) :: rest else f :: aListInsert rest k v

/-- Association-list lookup, mirroring JavaScript object property access. -/
def aListLookup : List (String × Nat) → String → Option Nat
  | [], _ => none
  | f :: rest, k => if f.1 = k then some f.2 else aListLookup rest k

/-- The `parameterNames` map of `parseRoutePathToRegex`: each token name is
assigned the running `argumentIndex` of its occurrence, later occurrences of
the same name overwriting earlier ones. -/
def buildNamesAux (i : Nat) : List String → List (String × Nat) → List (String × Nat)
  | [], acc => acc
  | n :: rest, acc => buildNamesAux (i + 1) rest (aListInsert acc n i)

/-- Build the name-to-capture-index map of a token list. -/
def buildNames (tokens : List String) : List (String × Nat) :=
  buildNamesAux 0 tokens []

/-- A capture-group fragment of the compiled route pattern.  The default
fragment produced for a `:name` token is `([^/]+)`: one or more characters
satisfying a character class.  Per-route regular-expression overrides are
modelled as one-or-more repetitions of a caller-supplied character class. -/
structure GroupPat where
  allow : Char → Bool

/-- The default capture fragment `([^/]+)`: one or more non-slash characters. -/
def defaultGroup : GroupPat :=
  ⟨fun c => c ≠ '/'⟩

/-- One token of the compiled anchored regular expression: a literal
character, the `.` metacharacter (any character except line terminators), or
a capture group. -/
inductive RTok where
  | lit (c : Char)
  | anyChar
  | group (g : GroupPat)

/-- JavaScript regex metacharacters other than `.`; a template containing one
of these in a literal position falls outside the fragment of regexes
modelled here (for several of them `new RegExp` would reject the pattern). -/
def isRegexMeta (c : Char) : Bool :=
  c = '\\' || c = '^' || c = '$' || c = '*' || c = '+' || c = '?' ||
  c = '(' || c = ')' || c = '[' || c = ']' || c = Char.ofNat 123 ||
  c = Char.ofNat 125 || c = '|'

/-- Lookup of a per-parameter regular-expression override. -/
def groupLookup : List (String × GroupPat) → String → Option GroupPat
  | [], _ => none
  | f :: rest, n => if f.1 = n then some f.2 else groupLookup rest n

/-- Compile one template segment to regex tokens: a literal `.` becomes the
any-character metacharacter, other literal characters stand for themselves,
and a `:name` token becomes a capture group (the per-route override when one
is configured, else `([^/]+)`). -/
def compileSeg (res : List (String × GroupPat)) : Seg → Option (List RTok)
  | Seg.lit c =>
      if c = '.' then some [RTok.anyChar]
      else if isRegexMeta c then none
      else some [RTok.lit c]
  | Seg.param n =>
      some [RTok.group (match groupLookup res n with
        | some g => g
        | none => defaultGroup)]

/-- Compile a whole template to the token list of its anchored regex. -/
def compileSegs (res : List (String × GroupPat)) : List Seg → Option (List RTok)
  | [] => some []
  | s :: rest =>
      match compileSeg res s, compileSegs res rest with
      | some a, some b => some (a ++ b)
      | _, _ => none

/-- One matching engine for the anchored regex with JavaScript semantics:
greedy capture groups with backtracking.  The mode argument is `none` while
matching tokens, or `some (g, acc)` while an open capture group `g` with
(reversed) accumulated characters `acc` is being extended.  Recursion is by
explicit fuel so that the kernel can evaluate the function; the fuel bound
used by the wrappers below is sufficient, as every step consumes one unit
of fuel and decreases the token-plus-input measure. -/
def rmatchF : Nat → Option (GroupPat × List Char) → List RTok → List Char →
    Option (List (List Char))
  | 0, _, _, _ => none
  | _ + 1, none, [], [] => some []
  | _ + 1, none, [], _ :: _ => none
  | _ + 1, none, RTok.lit _ :: _, [] => none
  | fuel + 1, none, RTok.lit c :: ts, d :: ds =>
      if c = d then rmatchF fuel none ts ds else none
  | _ + 1, none, RTok.anyChar :: _, [] => none
  | fuel + 1, none, RTok.anyChar :: ts, d :: ds =>
      if d = '\n' ∨ d = '\r' then none else rmatchF fuel none ts ds
  | _ + 1, none, RTok.group _ :: _, [] => none
  | fuel + 1, none, RTok.group g :: ts, d :: ds =>
      if g.allow d then rmatchF fuel (some (g, [d])) ts ds else none
  | fuel + 1, some (_, acc), ts, [] =>
      (rmatchF fuel none ts []).map (fun caps => acc.reverse :: caps)
  | fuel + 1, some (g, acc), ts, d :: ds =>
      if g.allow d then
        match rmatchF fuel (some (g, d :: acc)) ts ds with
        | some r => some r
        | none => (rmatchF fuel none ts (d :: ds)).map (fun caps => acc.reverse :: caps)
      else (rmatchF fuel none ts (d :: ds)).map (fun caps => acc.reverse :: caps)

/-- Anchored matching of compiled regex tokens against a character list:
returns the list of captured substrings (one per group, in group order), or
`none` when the pattern does not match the whole input. -/
def rmatchAux (toks : List RTok) (ds : List Char) : Option (List (List Char)) :=
  rmatchF (toks.length + ds.length + 1) none toks ds

/-- Anchored match of a compiled pattern against a string, returning the
captured groups as strings. -/
def rmatch (toks : List RTok) (path : String) : Option (List String) :=
  (rmatchAux toks path.toList).map (fun caps => caps.map String.mk)

/-- Classification of a handler parameter's declared type, as the generated
code distinguishes it: the `any` type (conversion and validation are
passthrough), the `BodyValidation` marker class (validation error sink),
another class type (with its schema's property names, used for query-string
flattening), or any other type. -/
inductive PType where
  | any
  | validationSink
  | clazz (fields : List String)
  | other
deriving DecidableEq, Repr

/-- A handler method argument property (`PropertySchema` of the type
package): its name, classified type, optionality, and its converter and
validator. -/
structure PropertySchema where
  name : String
  type : PType
  isOptional : Bool := false
  /-- identity of the resolved class type, the key used for injector lookup -/
  classId : String := ""
  /-- Modelled from the spec: the conversion callable produced by the external
  type service (`getPropertyXtoClassFunction`), raw value to typed value. -/
  conv : Value → Value := fun v => v
  /-- Modelled from the spec: the validation callable produced by the external
  type service (`jitValidateProperty`), yielding structured error records for
  a value at a path (the path argument is `undefined` when the generated code
  passes no defined path). -/
  valid : Value → Option String → List VErrItem := fun _ _ => []

/-- Decorator binding hint of a route parameter. -/
inductive BindKind where
  | body
  | query
deriving DecidableEq, Repr

/-- Per-parameter decorator configuration (`RouteParameterConfig`). -/
structure RouteParameterConfig where
  type : Option BindKind := none
  /-- `undefined` = the property name, the empty string = the query root,
  else the given dotted path -/
  typePath : Option String := none
  optional : Bool := false
  name : String := ""

/-- A registered route definition (`RouteConfig`).  The controller action is
represented by the handler method's argument properties
(`schema.getMethodProperties` of the controller class). -/
structure RouteConfig where
  name : String
  httpMethod : String
  path : String
  baseUrl : String := ""
  parameterRegularExpressions : List (String × GroupPat) := []
  parameters : List (String × RouteParameterConfig) := []
  methodProperties : List PropertySchema := []

/-- Strip trailing slashes. -/
def stripTrailSlash (s : String) : String :=
  String.mk (s.toList.reverse.dropWhile (fun c => c = '/')).reverse

/-- Strip leading slashes. -/
def stripLeadSlash (s : String) : String :=
  String.mk (s.toList.dropWhile (fun c => c = '/'))

/-- Modelled from the spec: Node `path.join` as used by `getFullPath`, for
the plain case of joining two segments with a single slash (no dot-segment
normalization). -/
def joinPath (a b : String) : String :=
  let a' := stripTrailSlash a
  let b' := stripLeadSlash b
  if b' = "" then a' else if a' = "" then b' else a' ++ "/" ++ b'

/-- `RouteConfig.getFullPath`: the base URL joined with the path, with a
leading slash enforced. -/
def RouteConfig.getFullPath (r : RouteConfig) : String :=
  let path := if r.baseUrl = "" then r.path else joinPath r.baseUrl r.path
  if strStartsWith "/" path then path else "/" ++ path

/-- Result of `parseRoutePathToRegex`: the replaced template (the produced
regex source string is modelled by its segment list) and the map from token
name to capture index. -/
structure ParsedPath where
  regexSegs : List Seg
  parameterNames : List (String × Nat)

/-- `parseRoutePathToRegex`: tokenize the full path, numbering `:name`
tokens left to right from 0; a repeated name overwrites its earlier map
entry.  No error is raised for duplicate names or any other template. -/
def parseRoutePathToRegex (r : RouteConfig) : ParsedPath :=
  let segs := parseSegs (r.getFullPath).toList
  { regexSegs := segs, parameterNames := buildNames (segNames segs) }

/-- One analysed handler parameter (`ParsedRouteParameter`). -/
structure ParsedRouteParameter where
  property : PropertySchema
  config : Option RouteParameterConfig := none
  regexPosition : Option Nat := none

/-- `config ? config.type === 'body' : false` -/
def ParsedRouteParameter.body (p : ParsedRouteParameter) : Bool :=
  match p.config with
  | some c => c.type == some BindKind.body
  | none => false

/-- `config ? config.type === 'query' : false` -/
def ParsedRouteParameter.query (p : ParsedRouteParameter) : Bool :=
  match p.config with
  | some c => c.type == some BindKind.query
  | none => false

/-- `config ? config.typePath : undefined` -/
def ParsedRouteParameter.typePath (p : ParsedRouteParameter) : Option String :=
  match p.config with
  | some c => c.typePath
  | none => none

/-- the property's name -/
def ParsedRouteParameter.getName (p : ParsedRouteParameter) : String :=
  p.property.name

/-- `regexPosition !== undefined` -/
def ParsedRouteParameter.isPartOfPath (p : ParsedRouteParameter) : Bool :=
  p.regexPosition.isSome

/-- Analysed route (`ParsedRoute`): the template segments of the produced
regex, the index of the validation-error-sink parameter when present (the
source keeps a reference to the last such parameter), and the handler
parameters in declaration order. -/
structure ParsedRoute where
  routeConfig : RouteConfig
  regexSegs : List Seg
  customValidationErrorHandling : Option Nat := none
  parameters : List ParsedRouteParameter := []

/-- Lookup of a parameter's decorator configuration by name. -/
def cfgLookup : List (String × RouteParameterConfig) → String →
    Option RouteParameterConfig
  | [], _ => none
  | f :: rest, k => if f.1 = k then some f.2 else cfgLookup rest k

/-- `parseRouteControllerAction`: pair each handler argument property with
its decorator data, apply the decorator's optional override, record the
capture position for properties whose name is a path token, and remember the
(last) parameter of the `BodyValidation` marker class. -/
def parseRouteControllerAction (r : RouteConfig) : ParsedRoute :=
  let parsedPath := parseRoutePathToRegex r
  let params := r.methodProperties.map (fun prop =>
    let cfg := cfgLookup r.parameters prop.name
    let prop := if (match cfg with | some c => c.optional | none => false)
      then { prop with isOptional := true } else prop
    ({ property := prop, config := cfg,
       regexPosition := aListLookup parsedPath.parameterNames prop.name } : ParsedRouteParameter))
  let sinkIdx := params.enum.foldl
    (fun acc ip => if ip.2.property.type = PType.validationSink then some ip.1 else acc) none
  { routeConfig := r, regexSegs := parsedPath.regexSegs,
    customValidationErrorHandling := sinkIdx, parameters := params }

/-- Expand every dot into a closing-opening bracket pair (the global replace
of `/\./g` by the two-character bracket string in `dotToUrlPath`). -/
def dotsExpand : List Char → List Char
  | [] => []
  | c :: rest => if c = '.' then ']' :: '[' :: dotsExpand rest else c :: dotsExpand rest

/-- Replace the first closing-opening bracket pair by a single opening
bracket (the non-global second replace of `dotToUrlPath`). -/
def replaceFirstBrk : List Char → List Char
  | [] => []
  | ']' :: '[' :: rest => '[' :: rest
  | c :: rest => c :: replaceFirstBrk rest

/-- `dotToUrlPath`: a path without dots is returned unchanged; otherwise
every dot becomes a bracket boundary and a final closing bracket is
appended, turning `a.b` into `a[b]`. -/
def dotToUrlPath (dotPath : String) : String :=
  if ¬ dotPath.toList.contains '.' then dotPath
  else String.mk (replaceFirstBrk (dotsExpand dotPath.toList)) ++ "]"

/-- Characters `encodeURIComponent` leaves unescaped. -/
def isUnreservedURIChar (c : Char) : Bool :=
  c.isAlpha || c.isDigit || c = '-' || c = '_' || c = '.' || c = '!' ||
  c = '~' || c = '*' || c = Char.ofNat 39 || c = '(' || c = ')'

/-- Uppercase hexadecimal digit. -/
def hexDigitChar (n : Nat) : Char :=
  if n < 10 then Char.ofNat (48 + n) else Char.ofNat (55 + n)

/-- UTF-8 bytes of a character. -/
def utf8BytesOfChar (c : Char) : List Nat :=
  let n := c.toNat
  if n < 128 then [n]
  else if n < 2048 then [192 + n / 64, 128 + n % 64]
  else if n < 65536 then [224 + n / 4096, 128 + (n / 64) % 64, 128 + n % 64]
  else [240 + n / 262144, 128 + (n / 4096) % 64, 128 + (n / 64) % 64, 128 + n % 64]

/-- Percent-escape of one byte, uppercase. -/
def pctEncodeByte (b : Nat) : List Char :=
  ['%', hexDigitChar (b / 16), hexDigitChar (b % 16)]

/-- JavaScript `encodeURIComponent`: unreserved characters kept, every other
character escaped byte by byte. -/
def encodeURIComponent (s : String) : String :=
  String.mk (s.toList.foldr
    (fun c acc =>
      (if isUnreservedURIChar c then [c]
       else (utf8BytesOfChar c).foldr (fun b a => pctEncodeByte b ++ a) []) ++ acc) [])

/-- JavaScript optional chaining `v?.k`: member access on a non-object (or
`undefined`) yields `undefined`. -/
def optChain (v : Value) (k : String) : Value :=
  match v with
  | Value.obj fs => objGet fs k
  | _ => Value.undef

/-- Character-level path substitution: literals kept, every `:name` token
replaced by the interpolation of the parameter value. -/
def substChars (params : String → Value) : List Seg → List Char
  | [] => []
  | Seg.lit c :: rest => c :: substChars params rest
  | Seg.param n :: rest => (toJSString (params n)).toList ++ substChars params rest

/-- Path substitution of `getRouteUrlResolveCode`: the full path with every
`:name` token replaced by the template-literal interpolation of the
parameter value. -/
def substSegs (segs : List Seg) (params : String → Value) : String :=
  String.mk (substChars params segs)

/-- The query-string pushes one parameter contributes in
`getRouteUrlResolveCode`: nothing unless query-bound; a class-typed
parameter pushes one encoded pair per schema field whose (optionally
chained) value is defined; any other parameter pushes one encoded pair when
its value is defined. -/
def modifyPushes (params : String → Value) (p : ParsedRouteParameter) : List String :=
  if p.query then
    let queryPath := match p.typePath with
      | none => p.property.name
      | some tp => tp
    match p.property.type with
    | PType.clazz fields =>
        fields.foldl (fun q f =>
          let accessor := optChain (params p.getName) f
          let thisPath := if queryPath = "" then f else queryPath ++ "." ++ f
          match accessor with
          | Value.undef => q
          | v => q ++ [dotToUrlPath thisPath ++ "=" ++ encodeURIComponent (toJSString v)]) []
    | _ =>
        match params p.getName with
        | Value.undef => []
        | v => [dotToUrlPath queryPath ++ "=" ++ encodeURIComponent (toJSString v)]
  else []

/-- The URL produced for one route by the generated resolver case: the
substituted path, followed by a question mark and the ampersand-joined
pushes when any exist. -/
def routeUrl (r : RouteConfig) (params : String → Value) : String :=
  let parsedRoute := parseRouteControllerAction r
  let url := substSegs (parseSegs (r.getFullPath).toList) params
  let query := parsedRoute.parameters.foldl (fun q p => q ++ modifyPushes params p) []
  if query.isEmpty then url else url ++ "?" ++ String.intercalate "&" query

/-- `buildUrlResolver` semantics: the generated switch holds one case per
route in registration order; JavaScript evaluates case labels top to bottom,
so the first route carrying the name wins; an unmatched name throws. -/
def resolveUrlList : List RouteConfig → String → (String → Value) →
    Except String String
  | [], name, _ => Except.error ("No route for name " ++ name ++ " found")
  | r :: rest, name, params =>
      if r.name = name then Except.ok (routeUrl r params)
      else resolveUrlList rest name params

/-- A compiled route matcher: exact string comparison (emitted when the
handler declares no parameters at all) or literal-prefix check plus
anchored regex. -/
inductive Matcher where
  | exact (path : String)
  | pattern (pre : String) (toks : List RTok)

/-- `path.substr(0, path.indexOf(':'))`: the literal text before the first
colon; when the path has no colon, `indexOf` is -1 and JavaScript `substr`
yields the empty string. -/
def routePre (path : String) : String :=
  if path.toList.contains ':' then String.mk (path.toList.takeWhile (fun c => c ≠ ':')) else ""

/-- One route compiled by `getRouteCode`. -/
structure CompiledRoute where
  routeConfig : RouteConfig
  parsedRoute : ParsedRoute
  methodLower : String
  matcher : Matcher

/-- Compile a route as `getRouteCode` does: the anchored regex is always
constructed (`none` models a template outside the regex fragment, where
`new RegExp` behaviour is not covered); the matcher is the exact comparison
against the full path when the handler has no parameters, else the
prefix-plus-regex form. -/
def compileRoute (r : RouteConfig) : Option CompiledRoute :=
  let parsedRoute := parseRouteControllerAction r
  let path := r.getFullPath
  match compileSegs r.parameterRegularExpressions parsedRoute.regexSegs with
  | none => none
  | some toks =>
      some { routeConfig := r
             parsedRoute := parsedRoute
             methodLower := jsToLower r.httpMethod
             matcher := if parsedRoute.parameters.isEmpty then Matcher.exact path
                        else Matcher.pattern (routePre path) toks }

/-- Evaluate a matcher against the request path, returning the regex
captures (empty for the exact matcher) on success. -/
def matcherTest : Matcher → String → Option (List String)
  | Matcher.exact p, path => if path = p then some [] else none
  | Matcher.pattern pre toks, path =>
      if strStartsWith pre path then rmatch toks path else none

/-- An incoming request: method, URL, and the field mapping the external
body-parsing service produces for its body. -/
structure HttpRequest where
  method : String
  url : String
  bodyFields : Value := Value.obj []

/-- The `_path` of the generated dispatcher: the URL up to (excluding) the
first question mark. -/
def pathOfUrl (url : String) : String :=
  if url.toList.contains '?' then String.mk (url.toList.takeWhile (fun c => c ≠ '?')) else url

/-- The raw query string: the URL after the first question mark, when one
exists. -/
def rawQueryOfUrl (url : String) : Option String :=
  if url.toList.contains '?' then
    some (String.mk ((url.toList.dropWhile (fun c => c ≠ '?')).drop 1))
  else none

/-- Split a query entry at its first equals sign. -/
def splitFirstEq (e : List Char) : String × String :=
  (String.mk (e.takeWhile (fun c => c ≠ '=')),
   String.mk ((e.dropWhile (fun c => c ≠ '=')).drop 1))

/-- Modelled from the spec: the external already-parsed query string (Node
`querystring.parse`): entries split on ampersands, each split at its first
equals sign; empty entries are skipped.  Percent-decoding of components and
array collection of duplicate keys are not modelled. -/
def qsParse (s : String) : Value :=
  Value.obj (((splitOnChar '&' s).filter (fun e => e ≠ "")).map
    (fun e => ((splitFirstEq e.toList).1, Value.str (splitFirstEq e.toList).2)))

/-- The `_query` of the generated dispatcher: an empty object when the URL
has no question mark, else the parsed query string. -/
def queryOfUrl (url : String) : Value :=
  match rawQueryOfUrl url with
  | none => Value.obj []
  | some q => qsParse q

/-- Chained bracket access `v[k1][k2]...`: plain member access on
`undefined` raises a `TypeError`, on any other non-object value it yields
`undefined`. -/
def queryAccessGo : Value → List String → Except DispatchError Value
  | v, [] => Except.ok v
  | Value.undef, _ :: _ => Except.error DispatchError.typeError
  | v, k :: rest => queryAccessGo (optChain v k) rest

/-- The generated query accessor for a dotted path: the whole query object
for the empty path, else chained bracket access along the dots. -/
def queryAccess (query : Value) (qp : String) : Except DispatchError Value :=
  if qp = "" then Except.ok query
  else queryAccessGo query (splitOnChar '.' qp)

/-- `_match[1 + pos]`: the captured group at a position, `undefined` out of
range. -/
def capRaw (caps : List String) (pos : Nat) : Value :=
  match caps.get? pos with
  | some s => Value.str s
  | none => Value.undef

/-- The emitted `parameterValidator` lines, executed in handler-parameter
declaration order: a path-bound parameter validates its raw capture into the
path/query error list (`validationErrors`) under its name; the sink
parameter contributes nothing; a body-bound parameter converts the parsed
body fields and validates the converted value into the body error list
(`bodyErrors`) under its type path (empty-string default); a query-bound
parameter validates its accessor value into the path/query error list under
its (possibly undefined) type path; parameters of the `any` type use the
no-op validator except for body binding, which always validates. -/
def runValidators (sinkIdx : Option Nat) (caps : List String) (query : Value)
    (bodyFields : Value) :
    List (Nat × ParsedRouteParameter) → List VErrItem → List VErrItem →
    Except DispatchError (List VErrItem × List VErrItem)
  | [], ve, be => Except.ok (ve, be)
  | (i, p) :: rest, ve, be =>
      if p.isPartOfPath then
        let raw := capRaw caps (p.regexPosition.getD 0)
        let errs := if p.property.type = PType.any then []
          else p.property.valid raw (some p.getName)
        runValidators sinkIdx caps query bodyFields rest (ve ++ errs) be
      else if sinkIdx = some i then
        runValidators sinkIdx caps query bodyFields rest ve be
      else if p.body then
        let converted := p.property.conv bodyFields
        let errs := p.property.valid converted
          (some (match p.typePath with | some tp => tp | none => ""))
        runValidators sinkIdx caps query bodyFields rest ve (be ++ errs)
      else if p.query then
        match queryAccess query (match p.typePath with | none => p.getName | some tp => tp) with
        | Except.error e => Except.error e
        | Except.ok v =>
            let errs := if p.property.type = PType.any then []
              else p.property.valid v p.typePath
            runValidators sinkIdx caps query bodyFields rest (ve ++ errs) be
      else
        runValidators sinkIdx caps query bodyFields rest ve be

/-- The emitted `setParameters` expressions, evaluated in declaration order
once no error was thrown: converted capture for path-bound parameters, a
`BodyValidation` instance holding the body errors for the sink, the
converted body fields for body-bound parameters, the converted accessor
value for query-bound parameters, and an injector lookup by resolved class
type otherwise. -/
def buildArgs (sinkIdx : Option Nat) (caps : List String) (query : Value)
    (bodyFields : Value) (injector : String → Value) (be : List VErrItem) :
    List (Nat × ParsedRouteParameter) → Except DispatchError (List Value)
  | [] => Except.ok []
  | (i, p) :: rest => do
      let v ←
        if p.isPartOfPath then
          let raw := capRaw caps (p.regexPosition.getD 0)
          pure (if p.property.type = PType.any then raw else p.property.conv raw)
        else if sinkIdx = some i then
          pure (Value.errs be)
        else if p.body then
          pure (p.property.conv bodyFields)
        else if p.query then do
          let qv ← queryAccess query
            (match p.typePath with | none => p.getName | some tp => tp)
          pure (if p.property.type = PType.any then qv else p.property.conv qv)
        else
          pure (injector p.property.classId)
      let restV ← buildArgs sinkIdx caps query bodyFields injector be rest
      pure (v :: restV)

/-- Whether the code generation loop reached the sink parameter's branch:
a sink parameter exists and is not path-bound (a path-bound parameter is
consumed by the path branch first).  Only then is the body-error throw
replaced by injection. -/
def sinkHandled (pr : ParsedRoute) : Bool :=
  match pr.customValidationErrorHandling with
  | some i =>
      match pr.parameters.get? i with
      | some p => !p.isPartOfPath
      | none => false
  | none => false

/-- The generated parameter closure: run all validator lines, then — unless
the sink parameter's branch was reached during code generation — throw a
`ValidationError` carrying the body errors when any exist, then throw a
`ValidationError` carrying the path/query errors when any exist (this throw
is emitted unconditionally, sink or not), and finally produce the argument
list, the sink parameter receiving the accumulated body errors. -/
def materializeParams (pr : ParsedRoute) (caps : List String) (query : Value)
    (bodyFields : Value) (injector : String → Value) :
    Except DispatchError (List Value) := do
  let sinkIdx := pr.customValidationErrorHandling
  let r ← runValidators sinkIdx caps query bodyFields pr.parameters.enum [] []
  if sinkHandled pr = false ∧ r.2 ≠ [] then Except.error (DispatchError.validation r.2)
  else if r.1 ≠ [] then Except.error (DispatchError.validation r.1)
  else buildArgs sinkIdx caps query bodyFields injector r.2 pr.parameters.enum

/-- The dispatcher's per-route output: the matched route configuration and
the parameter materializer (absent when the handler declares no
parameters). -/
structure ResolvedController where
  routeConfig : RouteConfig
  parameters : Option ((String → Value) → Except DispatchError (List Value))

/-- The per-route guard of the generated dispatch: lowercased method
equality, then the matcher. -/
def matchRouteFull (cr : CompiledRoute) (methodLower path : String) : Option (List String) :=
  if methodLower = cr.methodLower then matcherTest cr.matcher path else none

/-- The resolution value returned for a matched route. -/
def mkResolved (cr : CompiledRoute) (caps : List String) (query : Value)
    (bodyFields : Value) : ResolvedController :=
  { routeConfig := cr.routeConfig
    parameters :=
      if cr.parsedRoute.parameters.isEmpty then none
      else some (fun injector =>
        materializeParams cr.parsedRoute caps query bodyFields injector) }

/-- The concatenated per-route guards of `build()`, tried in registration
order; the first route whose method and path match returns. -/
def dispatchGo (methodLower path : String) (query bodyFields : Value) :
    List CompiledRoute → Option ResolvedController
  | [] => none
  | cr :: crs =>
      match matchRouteFull cr methodLower path with
      | some caps => some (mkResolved cr caps query bodyFields)
      | none => dispatchGo methodLower path query bodyFields crs

/-- The compiled dispatch function: split the URL at the first question
mark into path and query, lowercase the method, and try the routes in
order. -/
def dispatchList (crs : List CompiledRoute) (req : HttpRequest) : Option ResolvedController :=
  dispatchGo (jsToLower req.method) (pathOfUrl req.url) (queryOfUrl req.url) req.bodyFields crs

/-- Compile every registered route (`build()`); `none` models a route whose
template falls outside the regex fragment covered here. -/
def buildRouter : List RouteConfig → Option (List CompiledRoute)
  | [] => some []
  | r :: rest =>
      match compileRoute r, buildRouter rest with
      | some cr, some crs => some (cr :: crs)
      | _, _ => none

/-- The route selected for a request, ignoring the materializer. -/
def selectedRoute (crs : List CompiledRoute) (req : HttpRequest) : Option RouteConfig :=
  (dispatchList crs req).map (fun res => res.routeConfig)

/-- The `Router` object's mutable state.  The two cached compiled closures
(`fn` for dispatch, `resolveFn` for URL resolution) are pure functions of
the route list they closed over at build time, so each cache is modelled by
that captured route list. -/
structure RouterState where
  routes : List RouteConfig := []
  fnRoutes : Option (List RouteConfig) := none
  resolveFnRoutes : Option (List RouteConfig) := none

/-- `addRoute`: push the route and reset the cached dispatch function; the
cached URL resolver is left untouched. -/
def Router.addRoute (s : RouterState) (r : RouteConfig) : RouterState :=
  { routes := s.routes ++ [r], fnRoutes := none, resolveFnRoutes := s.resolveFnRoutes }

/-- `resolveUrl`: build the URL resolver from the current routes when no
cache exists, then resolve against the cached snapshot. -/
def Router.resolveUrl (s : RouterState) (name : String) (params : String → Value) :
    Except String String × RouterState :=
  let snap := s.resolveFnRoutes.getD s.routes
  (resolveUrlList snap name params, { s with resolveFnRoutes := some snap })

/-- `resolveRequest`: build the dispatch function from the current routes
when no cache exists, then dispatch against the cached snapshot. -/
def Router.resolveRequest (s : RouterState) (req : HttpRequest) :
    Option (Option ResolvedController) × RouterState :=
  let snap := s.fnRoutes.getD s.routes
  ((buildRouter snap).map (fun crs => dispatchList crs req), { s with fnRoutes := some snap })

/-- Index of the last occurrence of a name in a token list, counting from
`i`. -/
def lastIdxOfAux (i : Nat) (n : String) : List String → Option Nat
  | [] => none
  | t :: rest =>
      match lastIdxOfAux (i + 1) n rest with
      | some j => some j
      | none => if t = n then some i else none

/-- Index of the last occurrence of a name in a token list. -/
def lastIdxOf (tokens : List String) (n : String) : Option Nat :=
  lastIdxOfAux 0 n tokens

/-- Number of capture groups of a compiled pattern. -/
def countGroups : List RTok → Nat
  | [] => 0
  | RTok.group _ :: ts => countGroups ts + 1
  | RTok.lit _ :: ts => countGroups ts
  | RTok.anyChar :: ts => countGroups ts

/-- Reconstruction of the unique input a capture assignment decomposes: the
pattern's literals interleaved with the captures (undefined for patterns
containing the any-character metacharacter). -/
def rebuild : List RTok → List (List Char) → Option (List Char)
  | [], [] => some []
  | [], _ :: _ => none
  | RTok.lit c :: ts, caps => (rebuild ts caps).map (fun ds => c :: ds)
  | RTok.anyChar :: _, _ => none
  | RTok.group _ :: _, [] => none
  | RTok.group _ :: ts, cap :: caps => (rebuild ts caps).map (fun ds => cap ++ ds)

/-- Rendering of one query-string pair. -/
def renderQueryPair (e : String × Value) : String :=
  dotToUrlPath e.1 ++ "=" ++ encodeURIComponent (toJSString e.2)

/-- The defined query entries one parameter contributes: for a class-typed
query parameter one dotted-path/value pair per schema field whose value is
defined, for any other query parameter its single pair when defined,
nothing otherwise. -/
def entriesOfParam (params : String → Value) (p : ParsedRouteParameter) :
    List (String × Value) :=
  if p.query then
    let queryPath := match p.typePath with
      | none => p.property.name
      | some tp => tp
    match p.property.type with
    | PType.clazz fields =>
        fields.filterMap (fun f =>
          match optChain (params p.getName) f with
          | Value.undef => none
          | v => some ((if queryPath = "" then f else queryPath ++ "." ++ f), v))
    | _ =>
        match params p.getName with
        | Value.undef => []
        | v => [(queryPath, v)]
  else []

/-- All defined query entries of a parameter list, in declaration order. -/
def definedQueryEntries (params : String → Value) : List ParsedRouteParameter →
    List (String × Value)
  | [] => []
  | p :: rest => entriesOfParam params p ++ definedQueryEntries params rest

/-- The parameter mapping built from the handler parameter names and the
extracted argument list (a plain JavaScript object: absent names are
undefined). -/
def paramMap (names : List String) (vals : List Value) (n : String) : Value :=
  objGet (names.zip vals) n

/-- A template segment within the plainly-literal regex fragment: a literal
that is neither a dot nor another metacharacter, or any parameter token. -/
def segPlain : Seg → Bool
  | Seg.lit c => !(c = '.') && !(isRegexMeta c)
  | Seg.param _ => true

/-- A handler parameter property of the `any` type. -/
def anyProp (n : String) : PropertySchema :=
  { name := n, type := PType.any }

/-- The `BodyValidation`-typed sink property used by the examples. -/
def cexSinkProp : PropertySchema :=
  { name := "bv", type := PType.validationSink }

/-- A typed path parameter whose validator always reports an invalid
number. -/
def cexIdProp : PropertySchema :=
  { name := "id", type := PType.other,
    valid := fun _ _ => [⟨"invalid_number", "No number given", "id"⟩] }

/-- Route with a validation-error-sink parameter and a path parameter whose
validation fails. -/
def cexC1route : RouteConfig :=
  { name := "c1", httpMethod := "GET", path := "/u/:id",
    methodProperties := [cexSinkProp, cexIdProp] }

/-- A body-bound property whose validator reports a minimum-length error. -/
def c1BodyProp : PropertySchema :=
  { name := "b", type := PType.other,
    valid := fun _ _ => [⟨"minLength", "Min length is 3", "name"⟩] }

/-- Route with a sink parameter and a failing body-bound parameter. -/
def c1SinkRoute : RouteConfig :=
  { name := "c1b", httpMethod := "POST", path := "/items",
    parameters := [("b", { type := some BindKind.body })],
    methodProperties := [cexSinkProp, c1BodyProp] }

/-- First-registered route of the duplicated name. -/
def c2first : RouteConfig :=
  { name := "a", httpMethod := "GET", path := "/x1" }

/-- Second-registered route of the duplicated name. -/
def c2second : RouteConfig :=
  { name := "a", httpMethod := "GET", path := "/x2" }

/-- A route whose template has no `:name` token but whose handler declares a
query-bound parameter. -/
def c3qRoute : RouteConfig :=
  { name := "c3", httpMethod := "GET", path := "/a.b",
    parameters := [("q", { type := some BindKind.query })],
    methodProperties := [anyProp "q"] }

/-- A route with no handler parameters at all. -/
def c3plainRoute : RouteConfig :=
  { name := "c3p", httpMethod := "GET", path := "/users" }

/-- A route template using the same capture name twice. -/
def c4dupRoute : RouteConfig :=
  { name := "c4", httpMethod := "GET", path := "/:id/:id" }

/-- A parameterized route matching any single segment. -/
def c5paramRoute : RouteConfig :=
  { name := "c5a", httpMethod := "GET", path := "/:x",
    methodProperties := [anyProp "x"] }

/-- A literal route overlapping with `c5paramRoute`. -/
def c5litRoute : RouteConfig :=
  { name := "c5b", httpMethod := "GET", path := "/ab" }

/-- The compiled table of the two overlapping routes. -/
def c5crs : List CompiledRoute :=
  (buildRouter [c5paramRoute, c5litRoute]).getD []

/-- A route whose literal prefix contains a regex metacharacter (a dot). -/
def c8dotRoute : RouteConfig :=
  { name := "c8", httpMethod := "GET", path := "/a.b/:id",
    methodProperties := [anyProp "id"] }

/-- A parameterized route with a plain literal prefix. -/
def c8okRoute : RouteConfig :=
  { name := "c8ok", httpMethod := "GET", path := "/u/:id",
    methodProperties := [anyProp "id"] }

/-- The compiled tokens of `c8okRoute`. -/
def c8okToks : List RTok :=
  [RTok.lit '/', RTok.lit 'u', RTok.lit '/', RTok.group defaultGroup]

/-- The compiled form of `c8okRoute`. -/
def c8okCr : CompiledRoute :=
  (compileRoute c8okRoute).getD
    ⟨c8okRoute, parseRouteControllerAction c8okRoute, "", Matcher.exact ""⟩

/-- The registered route of the cached-resolver example. -/
def c9routeA : RouteConfig :=
  { name := "a", httpMethod := "GET", path := "/a" }

/-- Router state after a first `resolveUrl` call built and cached the URL
resolver. -/
def c9state : RouterState :=
  (Router.resolveUrl { routes := [c9routeA] } "a" (fun _ => Value.undef)).2

/-- A route registered only after the URL resolver was cached. -/
def c9newRoute : RouteConfig :=
  { name := "b", httpMethod := "GET", path := "/b" }

/-- Query-carrying route for the selection-independence example. -/
def c10route : RouteConfig :=
  { name := "c10", httpMethod := "GET", path := "/:x",
    methodProperties := [anyProp "x"] }

/-- Its compiled table. -/
def c10crs : List CompiledRoute :=
  (buildRouter [c10route]).getD []

/-- Path-parameter-only route of the round-trip example. -/
def c6route : RouteConfig :=
  { name := "userProfile", httpMethod := "GET", path := "/users/:id",
    methodProperties := [anyProp "id"] }

/-- Its compiled table. -/
def c6crs : List CompiledRoute :=
  (buildRouter [c6route]).getD []

/-- The round-trip example request (with a query string to be stripped). -/
def c6req : HttpRequest :=
  { method := "GET", url := "/users/42?tab=posts" }

/-- The dispatch result of the round-trip example. -/
def c6res : ResolvedController :=
  (dispatchList c6crs c6req).getD ⟨c6route, none⟩

/-- The query scenario route: a path parameter, a primitive query parameter
and a class-typed query parameter. -/
def c7route : RouteConfig :=
  { name := "c7", httpMethod := "GET", path := "/users/:id",
    parameters := [("tab", { type := some BindKind.query }),
                   ("value", { type := some BindKind.query })],
    methodProperties := [anyProp "id", anyProp "tab",
                         { name := "value", type := PType.clazz ["a", "b"] }] }

/-- The parameter values of the query scenario: `b` left undefined. -/
def c7params (n : String) : Value :=
  if n = "id" then Value.str "7"
  else if n = "tab" then Value.str "posts"
  else if n = "value" then Value.obj [("a", Value.str "x y")]
  else Value.undef

/-! ### General lemmas about the embedded definitions -/

theorem aListLookup_insert (l : List (String × Nat)) (k n : String) (v : Nat) :
    aListLookup (aListInsert l k v) n = if n = k then some v else aListLookup l n := by
  induction l with
  | nil =>
      by_cases h : n = k
      · subst h; simp [aListInsert, aListLookup]
      · simp [aListInsert, aListLookup, h, Ne.symm h]
  | cons hd tl ih =>
      by_cases h1 : hd.1 = k
      · subst h1
        by_cases h : n = hd.1
        · subst h; simp [aListInsert, aListLookup]
        · simp [aListInsert, aListLookup, h, Ne.symm h]
      · by_cases h : hd.1 = n
        · subst h
          simp [aListInsert, aListLookup, h1, Ne.symm h1]
        · simp [aListInsert, aListLookup, h1, h, ih]

theorem buildNamesAux_lookup :
    ∀ (tokens : List String) (i : Nat) (acc : List (String × Nat)) (n : String),
    aListLookup (buildNamesAux i tokens acc) n =
      match lastIdxOfAux i n tokens with
      | some j => some j
      | none => aListLookup acc n
  | [], i, acc, n => by simp [buildNamesAux, lastIdxOfAux]
  | t :: rest, i, acc, n => by
      simp only [buildNamesAux, lastIdxOfAux]
      rw [buildNamesAux_lookup rest (i + 1) (aListInsert acc t i) n]
      cases h : lastIdxOfAux (i + 1) n rest with
      | some j => rfl
      | none =>
          simp only []
          rw [aListLookup_insert]
          by_cases hn : n = t
          · subst hn; simp
          · simp [hn, Ne.symm hn]

theorem countGroups_append (a b : List RTok) :
    countGroups (a ++ b) = countGroups a + countGroups b := by
  induction a with
  | nil => simp [countGroups]
  | cons t ts ih =>
      cases t <;> simp [countGroups, ih, Nat.add_comm, Nat.add_assoc, Nat.add_left_comm]

theorem countGroups_compileSegs :
    ∀ (segs : List Seg) (res : List (String × GroupPat)) (toks : List RTok),
    compileSegs res segs = some toks → countGroups toks = (segNames segs).length
  | [], _, toks, h => by
      simp [compileSegs] at h; subst h; simp [countGroups, segNames]
  | s :: rest, res, toks, h => by
      simp only [compileSegs] at h
      cases hs : compileSeg res s with
      | none => rw [hs] at h; exact absurd h (by simp)
      | some a =>
          cases hr : compileSegs res rest with
          | none => rw [hs, hr] at h; exact absurd h (by simp)
          | some b =>
              rw [hs, hr] at h
              simp only [Option.some.injEq] at h
              subst h
              rw [countGroups_append]
              have ihb := countGroups_compileSegs rest res b hr
              cases s with
              | lit c =>
                  by_cases hc : c = '.'
                  · simp [compileSeg, hc] at hs
                    subst hs
                    simp [countGroups, segNames, ihb]
                  · by_cases hm : isRegexMeta c = true
                    · simp [compileSeg, hc, hm] at hs
                    · simp [compileSeg, hc, hm] at hs
                      subst hs
                      simp [countGroups, segNames, ihb]
              | param nm =>
                  simp [compileSeg] at hs
                  subst hs
                  simp [countGroups, segNames, ihb, Nat.add_comm]

/-! ### C4 — duplicate capture names and template compilation -/

/-- C4 counterexample: compiling the route `/:id/:id`, whose template uses
the same capture name twice, raises no configuration error: it silently
produces a pattern with two capture tokens and maps the name to the index
of its second occurrence, and the whole route compiles. -/
theorem claim_C4_counterexample :
    (parseRoutePathToRegex c4dupRoute).parameterNames = [("id", 1)] ∧
    segNames (parseRoutePathToRegex c4dupRoute).regexSegs = ["id", "id"] ∧
    (compileRoute c4dupRoute).isSome = true :=
  ⟨rfl, rfl, rfl⟩

/-- C4 amended: route-path compilation never raises; every `:name` token
becomes one capture group (one group per occurrence), and a name occurring
more than once is mapped to the capture index of its last occurrence, the
earlier entry being silently overwritten. -/
theorem claim_C4_amended (r : RouteConfig) (n : String) :
    (aListLookup (parseRoutePathToRegex r).parameterNames n =
      lastIdxOf (segNames (parseRoutePathToRegex r).regexSegs) n) ∧
    (∀ (res : List (String × GroupPat)) (toks : List RTok),
      compileSegs res (parseRoutePathToRegex r).regexSegs = some toks →
      countGroups toks = (segNames (parseRoutePathToRegex r).regexSegs).length) := by
  constructor
  · simp only [parseRoutePathToRegex, buildNames, lastIdxOf]
    rw [buildNamesAux_lookup]
    cases lastIdxOfAux 0 n (segNames (parseSegs (r.getFullPath).toList)) with
    | some j => rfl
    | none => rfl
  · intro res toks h
    exact countGroups_compileSegs _ res toks h

/-- C4 witness: the amended characterization evaluated on the
duplicate-name route. -/
theorem claim_C4_witness :
    (compileSegs [] (parseRoutePathToRegex c4dupRoute).regexSegs).isSome = true ∧
    (aListLookup (parseRoutePathToRegex c4dupRoute).parameterNames "id" =
      lastIdxOf (segNames (parseRoutePathToRegex c4dupRoute).regexSegs) "id") ∧
    (∀ (toks : List RTok),
      compileSegs [] (parseRoutePathToRegex c4dupRoute).regexSegs = some toks →
      countGroups toks = (segNames (parseRoutePathToRegex c4dupRoute).regexSegs).length) :=
  ⟨rfl, (claim_C4_amended c4dupRoute "id").1,
   fun toks h => (claim_C4_amended c4dupRoute "id").2 [] toks h⟩

/-! ### C2 — duplicate route names in URL resolution -/

/-- C2 counterexample: with two routes registered under the name `a`, URL
resolution returns the first-registered route's URL, not the
most-recently-registered one's. -/
theorem claim_C2_counterexample :
    resolveUrlList [c2first, c2second] "a" (fun _ => Value.undef) = Except.ok "/x1" ∧
    routeUrl c2second (fun _ => Value.undef) = "/x2" ∧
    ("/x1" : String) ≠ "/x2" :=
  ⟨rfl, rfl, by decide⟩

/-- C2 amended: when two or more routes are registered under the same name,
`resolveUrl` resolves against the earliest-registered route of that name
(the generated switch evaluates its case labels in registration order). -/
theorem claim_C2_amended :
    ∀ (routes : List RouteConfig) (name : String) (params : String → Value)
      (i : Nat) (hi : i < routes.length),
      (routes.get ⟨i, hi⟩).name = name →
      ∃ (k : Nat) (hk : k < routes.length), k ≤ i ∧ (routes.get ⟨k, hk⟩).name = name ∧
        (∀ (l : Nat), l < k → ∀ (hl : l < routes.length), (routes.get ⟨l, hl⟩).name ≠ name) ∧
        resolveUrlList routes name params = Except.ok (routeUrl (routes.get ⟨k, hk⟩) params)
  | [], _, _, i, hi, _ => absurd hi (by simp)
  | r :: rest, name, params, i, hi, hname => by
      by_cases h : r.name = name
      · refine ⟨0, by simp, Nat.zero_le _, h, ?_, ?_⟩
        · intro l hl
          exact absurd hl (Nat.not_lt_zero l)
        · simp [resolveUrlList, h]
      · cases i with
        | zero => exact absurd hname h
        | succ i0 =>
            have hi0 : i0 < rest.length := by
              simpa [Nat.succ_lt_succ_iff] using hi
            have hname0 : (rest.get ⟨i0, hi0⟩).name = name := hname
            obtain ⟨k, hk, hki, hkname, hkmin, hkres⟩ :=
              claim_C2_amended rest name params i0 hi0 hname0
            refine ⟨k + 1, by simpa [Nat.succ_lt_succ_iff] using hk,
              Nat.succ_le_succ hki, hkname, ?_, ?_⟩
            · intro l hl hl2
              cases l with
              | zero => exact h
              | succ l0 =>
                  exact hkmin l0 (Nat.lt_of_succ_lt_succ hl)
                    (by simpa [Nat.succ_lt_succ_iff] using hl2)
            · simpa [resolveUrlList, h] using hkres

/-- C2 witness: the amended lookup evaluated on the duplicated registry. -/
theorem claim_C2_witness :
    ([c2first, c2second].get ⟨1, by decide⟩).name = "a" ∧
    ∃ (k : Nat) (hk : k < ([c2first, c2second] : List RouteConfig).length), k ≤ 1 ∧
      (([c2first, c2second] : List RouteConfig).get ⟨k, hk⟩).name = "a" ∧
      (∀ (l : Nat), l < k → ∀ (hl : l < ([c2first, c2second] : List RouteConfig).length),
        (([c2first, c2second] : List RouteConfig).get ⟨l, hl⟩).name ≠ "a") ∧
      resolveUrlList [c2first, c2second] "a" (fun _ => Value.undef) =
        Except.ok (routeUrl (([c2first, c2second] : List RouteConfig).get ⟨k, hk⟩)
          (fun _ => Value.undef)) :=
  ⟨rfl, claim_C2_amended [c2first, c2second] "a" (fun _ => Value.undef) 1 (by decide) rfl⟩

/-! ### C10 — query-string independence of route selection -/

theorem dispatchGo_routeConfig_indep (ml p : String) (q₁ q₂ b₁ b₂ : Value) :
    ∀ (crs : List CompiledRoute),
      (dispatchGo ml p q₁ b₁ crs).map (fun r => r.routeConfig) =
        (dispatchGo ml p q₂ b₂ crs).map (fun r => r.routeConfig)
  | [] => rfl
  | cr :: crs => by
      simp only [dispatchGo]
      cases matchRouteFull cr ml p with
      | none => exact dispatchGo_routeConfig_indep ml p q₁ q₂ b₁ b₂ crs
      | some caps => simp [mkResolved]

/-- C10: route selection depends only on the method and on the URL portion
before the first question mark: two requests with the same method whose
URLs share that portion select the same route (or both fail to match); the
query string and parsed body can only influence the materialized parameter
values, not which route is chosen. -/
theorem claim_C10 (crs : List CompiledRoute) (m u₁ u₂ : String) (b₁ b₂ : Value)
    (h : pathOfUrl u₁ = pathOfUrl u₂) :
    selectedRoute crs { method := m, url := u₁, bodyFields := b₁ } =
      selectedRoute crs { method := m, url := u₂, bodyFields := b₂ } := by
  unfold selectedRoute dispatchList
  simp only []
  rw [h]
  exact dispatchGo_routeConfig_indep (jsToLower m) (pathOfUrl u₂)
    (queryOfUrl u₁) (queryOfUrl u₂) b₁ b₂ crs

/-- C10 witness: two URLs differing only after the question mark select the
same route of the concrete table. -/
theorem claim_C10_witness :
    pathOfUrl "/v?a=1" = pathOfUrl "/v?b=2&c=3" ∧
    selectedRoute c10crs { method := "GET", url := "/v?a=1", bodyFields := Value.obj [] } =
      selectedRoute c10crs { method := "GET", url := "/v?b=2&c=3", bodyFields := Value.obj [] } :=
  ⟨rfl, claim_C10 c10crs "GET" "/v?a=1" "/v?b=2&c=3" (Value.obj []) (Value.obj []) rfl⟩

/-! ### C5 — registration-order precedence of dispatch -/

theorem dispatchGo_first_match (ml p : String) (q b : Value) :
    ∀ (crs : List CompiledRoute) (i : Nat) (hi : i < crs.length),
      (matchRouteFull (crs.get ⟨i, hi⟩) ml p).isSome = true →
      ∃ (k : Nat) (hk : k < crs.length), k ≤ i ∧
        (matchRouteFull (crs.get ⟨k, hk⟩) ml p).isSome = true ∧
        (∀ (l : Nat), l < k → ∀ (hl : l < crs.length),
          matchRouteFull (crs.get ⟨l, hl⟩) ml p = none) ∧
        dispatchGo ml p q b crs =
          (matchRouteFull (crs.get ⟨k, hk⟩) ml p).map
            (fun caps => mkResolved (crs.get ⟨k, hk⟩) caps q b)
  | [], i, hi, _ => absurd hi (by simp)
  | cr :: crs, i, hi, hm => by
      cases hmr : matchRouteFull cr ml p with
      | some caps =>
          refine ⟨0, by simp, Nat.zero_le _, by simp [hmr], ?_, ?_⟩
          · intro l hl
            exact absurd hl (Nat.not_lt_zero l)
          · simp [dispatchGo, hmr]
      | none =>
          cases i with
          | zero => rw [show (cr :: crs).get ⟨0, hi⟩ = cr from rfl, hmr] at hm; simp at hm
          | succ i0 =>
              have hi0 : i0 < crs.length := by
                simpa [Nat.succ_lt_succ_iff] using hi
              obtain ⟨k, hk, hki, hkm, hkmin, hkres⟩ :=
                dispatchGo_first_match ml p q b crs i0 hi0 hm
              refine ⟨k + 1, by simpa [Nat.succ_lt_succ_iff] using hk,
                Nat.succ_le_succ hki, hkm, ?_, ?_⟩
              · intro l hl hl2
                cases l with
                | zero => exact hmr
                | succ l0 =>
                    exact hkmin l0 (Nat.lt_of_succ_lt_succ hl)
                      (by simpa [Nat.succ_lt_succ_iff] using hl2)
              · simpa [dispatchGo, hmr] using hkres

/-- C5: when a request is matched by two or more compiled routes, dispatch
returns the resolution of the earliest-registered matching route: the
result is produced from the first route (in registration order) whose
lowercased method and path matcher succeed, every earlier route failing its
match, with no other tie-breaking. -/
theorem claim_C5 (crs : List CompiledRoute) (req : HttpRequest)
    (i j : Nat) (hi : i < crs.length) (hj : j < crs.length) (_hij : i < j)
    (mi : (matchRouteFull (crs.get ⟨i, hi⟩) (jsToLower req.method) (pathOfUrl req.url)).isSome = true)
    (_mj : (matchRouteFull (crs.get ⟨j, hj⟩) (jsToLower req.method) (pathOfUrl req.url)).isSome = true) :
    ∃ (k : Nat) (hk : k < crs.length), k ≤ i ∧
      (matchRouteFull (crs.get ⟨k, hk⟩) (jsToLower req.method) (pathOfUrl req.url)).isSome = true ∧
      (∀ (l : Nat), l < k → ∀ (hl : l < crs.length),
        matchRouteFull (crs.get ⟨l, hl⟩) (jsToLower req.method) (pathOfUrl req.url) = none) ∧
      dispatchList crs req =
        (matchRouteFull (crs.get ⟨k, hk⟩) (jsToLower req.method) (pathOfUrl req.url)).map
          (fun caps => mkResolved (crs.get ⟨k, hk⟩) caps (queryOfUrl req.url) req.bodyFields) :=
  dispatchGo_first_match (jsToLower req.method) (pathOfUrl req.url)
    (queryOfUrl req.url) req.bodyFields crs i hi mi

/-- C5 witness: the request `GET /ab` is matched by both the parameterized
route `/:x` and the literal route `/ab`; dispatch resolves the
first-registered one. -/
theorem claim_C5_witness :
    (0 : Nat) < 1 ∧
    (matchRouteFull (c5crs.get ⟨0, by decide⟩) (jsToLower "GET") (pathOfUrl "/ab")).isSome = true ∧
    (matchRouteFull (c5crs.get ⟨1, by decide⟩) (jsToLower "GET") (pathOfUrl "/ab")).isSome = true ∧
    ∃ (k : Nat) (hk : k < c5crs.length), k ≤ 0 ∧
      (matchRouteFull (c5crs.get ⟨k, hk⟩) (jsToLower "GET") (pathOfUrl "/ab")).isSome = true ∧
      (∀ (l : Nat), l < k → ∀ (hl : l < c5crs.length),
        matchRouteFull (c5crs.get ⟨l, hl⟩) (jsToLower "GET") (pathOfUrl "/ab") = none) ∧
      dispatchList c5crs { method := "GET", url := "/ab" } =
        (matchRouteFull (c5crs.get ⟨k, hk⟩) (jsToLower "GET") (pathOfUrl "/ab")).map
          (fun caps => mkResolved (c5crs.get ⟨k, hk⟩) caps
            (queryOfUrl "/ab") (Value.obj [])) :=
  ⟨by decide, rfl, rfl,
   claim_C5 c5crs { method := "GET", url := "/ab" } 0 1 (by decide) (by decide)
     (by decide) rfl rfl⟩

/-! ### C9 — addRoute resets only the dispatch cache -/

/-- C9: `addRoute` resets only the cached dispatch function and leaves the
cached URL resolver untouched: on a router whose URL resolver has been
built (cached over the snapshot `rs`), any subsequently added route is
invisible to `resolveUrl` — it still resolves against `rs`, and a name
only the new route carries still fails — while `resolveRequest` rebuilds
from the updated route list and does see the new route. -/
theorem claim_C9 (s : RouterState) (rs : List RouteConfig)
    (h : s.resolveFnRoutes = some rs) (r : RouteConfig) (name : String)
    (params : String → Value) (req : HttpRequest) :
    ((Router.resolveUrl (Router.addRoute s r) name params).1 =
      resolveUrlList rs name params) ∧
    ((Router.resolveRequest (Router.addRoute s r) req).1 =
      (buildRouter (s.routes ++ [r])).map (fun crs => dispatchList crs req)) ∧
    (r.name = name → (∀ rc ∈ rs, rc.name ≠ name) →
      (Router.resolveUrl (Router.addRoute s r) name params).1 =
        Except.error ("No route for name " ++ name ++ " found")) := by
  refine ⟨?_, ?_, ?_⟩
  · simp [Router.addRoute, Router.resolveUrl, h]
  · simp [Router.addRoute, Router.resolveRequest]
  · intro _ hnone
    simp only [Router.addRoute, Router.resolveUrl, h, Option.getD_some]
    clear h
    induction rs with
    | nil => rfl
    | cons rc rest ih =>
        have h1 : rc.name ≠ name := hnone rc (by simp)
        simp only [resolveUrlList, if_neg h1]
        exact ih (fun rc2 hm => hnone rc2 (by simp [hm]))

/-- C9 witness: after a first `resolveUrl` call cached the resolver over
the single route `a`, adding a route named `b` leaves `resolveUrl "b"`
failing while `resolveRequest` matches the new route. -/
theorem claim_C9_witness :
    c9state.resolveFnRoutes = some [c9routeA] ∧
    ((Router.resolveUrl (Router.addRoute c9state c9newRoute) "b" (fun _ => Value.undef)).1 =
      resolveUrlList [c9routeA] "b" (fun _ => Value.undef)) ∧
    ((Router.resolveRequest (Router.addRoute c9state c9newRoute)
        { method := "GET", url := "/b" }).1 =
      (buildRouter (c9state.routes ++ [c9newRoute])).map
        (fun crs => dispatchList crs { method := "GET", url := "/b" })) ∧
    (c9newRoute.name = "b" → (∀ rc ∈ [c9routeA], rc.name ≠ "b") →
      (Router.resolveUrl (Router.addRoute c9state c9newRoute) "b" (fun _ => Value.undef)).1 =
        Except.error ("No route for name " ++ "b" ++ " found")) :=
  ⟨rfl, (claim_C9 c9state [c9routeA] rfl c9newRoute "b" (fun _ => Value.undef)
      { method := "GET", url := "/b" }).1,
   (claim_C9 c9state [c9routeA] rfl c9newRoute "b" (fun _ => Value.undef)
      { method := "GET", url := "/b" }).2.1,
   (claim_C9 c9state [c9routeA] rfl c9newRoute "b" (fun _ => Value.undef)
      { method := "GET", url := "/b" }).2.2⟩

/-! ### C3 — the exact-match fast path -/

/-- C3 counterexample: the route `/a.b` has no `:name` token, yet — because
its handler declares a (query-bound) parameter — its compiled matcher is
the prefix-plus-regex form, not an exact string comparison, and dispatch
accepts the request path `/aXb`, which is not equal to the route's path
(the dot is interpreted as the regex any-character metacharacter). -/
theorem claim_C3_counterexample :
    segNames (parseSegs (RouteConfig.getFullPath c3qRoute).toList) = [] ∧
    ((compileRoute c3qRoute).map (fun cr =>
        match cr.matcher with
        | Matcher.exact _ => true
        | Matcher.pattern _ _ => false) = some false) ∧
    ((buildRouter [c3qRoute]).map (fun crs =>
        selectedRoute crs { method := "GET", url := "/aXb" }) = some (some c3qRoute)) ∧
    ("/aXb" : String) ≠ RouteConfig.getFullPath c3qRoute :=
  ⟨rfl, rfl, rfl, by decide⟩

/-- C3 amended: the exact-string fast path applies to the routes whose
handler declares no parameters at all (`getParameters().length === 0`), not
to those without path tokens: for such a route the compiled matcher is the
exact comparison against the full path, and dispatch matches exactly when
the lowercased methods agree and the request path equals the route path. -/
theorem claim_C3_amended (r : RouteConfig) (cr : CompiledRoute)
    (hnoparams : r.methodProperties = []) (hc : compileRoute r = some cr)
    (req : HttpRequest) :
    cr.matcher = Matcher.exact (RouteConfig.getFullPath r) ∧
    ((dispatchList [cr] req).isSome = true ↔
      (jsToLower req.method = jsToLower r.httpMethod ∧
        pathOfUrl req.url = RouteConfig.getFullPath r)) := by
  have hparams : (parseRouteControllerAction r).parameters = [] := by
    simp [parseRouteControllerAction, hnoparams]
  have hmatcher : cr.matcher = Matcher.exact (RouteConfig.getFullPath r) ∧
      cr.methodLower = jsToLower r.httpMethod := by
    simp only [compileRoute] at hc
    cases hcs : compileSegs r.parameterRegularExpressions
        (parseRouteControllerAction r).regexSegs with
    | none => rw [hcs] at hc; exact absurd hc (by simp)
    | some toks =>
        rw [hcs] at hc
        simp only [Option.some.injEq] at hc
        subst hc
        simp [hparams]
  refine ⟨hmatcher.1, ?_⟩
  simp only [dispatchList, dispatchGo, matchRouteFull, hmatcher.1, hmatcher.2, matcherTest]
  by_cases hm : jsToLower req.method = jsToLower r.httpMethod
  · by_cases hp : pathOfUrl req.url = RouteConfig.getFullPath r
    · simp [hm, hp]
    · simp [hm, hp]
  · simp [hm]

/-- C3 witness: the amended statement evaluated on the parameterless route
`GET /users`. -/
theorem claim_C3_witness :
    c3plainRoute.methodProperties = [] ∧
    ∃ cr, compileRoute c3plainRoute = some cr ∧
      cr.matcher = Matcher.exact (RouteConfig.getFullPath c3plainRoute) ∧
      ((dispatchList [cr] { method := "GET", url := "/users" }).isSome = true ↔
        (jsToLower "GET" = jsToLower c3plainRoute.httpMethod ∧
          pathOfUrl "/users" = RouteConfig.getFullPath c3plainRoute)) := by
  refine ⟨rfl, ?_⟩
  cases hc : compileRoute c3plainRoute with
  | none => exact absurd hc (by simp [compileRoute, compileSegs, parseRouteControllerAction,
      parseRoutePathToRegex, parseSegs, parseSegsF, compileSeg, isRegexMeta])
  | some cr =>
      exact ⟨cr, rfl, claim_C3_amended c3plainRoute cr rfl hc
        { method := "GET", url := "/users" }⟩

/-! ### C8 — the literal-prefix short-circuit -/

theorem parseSegsF_congr :
    ∀ (fuel₁ fuel₂ : Nat) (l : List Char), l.length ≤ fuel₁ → l.length ≤ fuel₂ →
      parseSegsF fuel₁ l = parseSegsF fuel₂ l
  | fuel₁, fuel₂, [], _, _ => by
      cases fuel₁ <;> cases fuel₂ <;> rfl
  | fuel₁ + 1, fuel₂ + 1, c :: rest, h₁, h₂ => by
      simp only [parseSegsF]
      by_cases h : c = ':' ∧ rest.takeWhile isWordChar ≠ []
      · simp only [if_pos h]
        have hd := (List.dropWhile_sublist (l := rest) isWordChar).length_le
        rw [parseSegsF_congr fuel₁ fuel₂ (rest.dropWhile isWordChar)
          (by simp at h₁; omega) (by simp at h₂; omega)]
      · simp only [if_neg h]
        rw [parseSegsF_congr fuel₁ fuel₂ rest
          (by simp at h₁; omega) (by simp at h₂; omega)]
  | 0, _, c :: rest, h₁, _ => by simp at h₁
  | _ + 1, 0, c :: rest, _, h₂ => by simp at h₂

theorem parseSegs_cons_of_ne_colon (c : Char) (l : List Char) (hc : c ≠ ':') :
    parseSegs (c :: l) = Seg.lit c :: parseSegs l := by
  simp only [parseSegs, List.length_cons, parseSegsF]
  rw [if_neg (fun hh => hc hh.1)]

theorem parseSegs_append_nocolon :
    ∀ (a b : List Char), (∀ c ∈ a, c ≠ ':') →
      parseSegs (a ++ b) = a.map Seg.lit ++ parseSegs b
  | [], b, _ => by simp
  | c :: a, b, h => by
      have hc : c ≠ ':' := h c (by simp)
      rw [List.cons_append, parseSegs_cons_of_ne_colon c (a ++ b) hc,
        parseSegs_append_nocolon a b (fun d hd => h d (by simp [hd]))]
      simp

theorem compileSegs_lit_append :
    ∀ (a : List Char) (segs : List Seg) (res : List (String × GroupPat)) (toks : List RTok),
      compileSegs res (a.map Seg.lit ++ segs) = some toks → (∀ c ∈ a, c ≠ '.') →
      ∃ toks', toks = a.map RTok.lit ++ toks' ∧ compileSegs res segs = some toks'
  | [], segs, res, toks, h, _ => ⟨toks, by simp, h⟩
  | c :: a, segs, res, toks, h, hd => by
      have hc : c ≠ '.' := hd c (by simp)
      simp only [List.map_cons, List.cons_append, List.append_eq, compileSegs] at h
      cases hs : compileSeg res (Seg.lit c) with
      | none => rw [hs] at h; exact absurd h (by simp)
      | some frag =>
          rw [hs] at h
          cases hr : compileSegs res (a.map Seg.lit ++ segs) with
          | none => rw [hr] at h; exact absurd h (by simp)
          | some b =>
              rw [hr] at h
              simp only [Option.some.injEq] at h
              obtain ⟨toks', htoks, hrest⟩ :=
                compileSegs_lit_append a segs res b hr (fun d hdm => hd d (by simp [hdm]))
              by_cases hmeta : isRegexMeta c = true
              · simp [compileSeg, hc, hmeta] at hs
              · simp only [compileSeg, if_neg hc, hmeta, Bool.false_eq_true, if_false,
                  Option.some.injEq] at hs
                subst hs
                subst h
                exact ⟨toks', by simp [htoks], hrest⟩

theorem rmatchF_lit_prefix :
    ∀ (a : List Char) (fuel : Nat) (toks : List RTok) (ds : List Char)
      (caps : List (List Char)),
      rmatchF fuel none (a.map RTok.lit ++ toks) ds = some caps → a <+: ds
  | [], _, _, _, _, _ => List.nil_prefix
  | c :: a, fuel, toks, ds, caps, h => by
      cases fuel with
      | zero => exact absurd h (by simp [rmatchF])
      | succ fuel =>
          cases ds with
          | nil => exact absurd h (by simp [rmatchF])
          | cons d ds =>
              simp only [List.map_cons, List.cons_append, rmatchF] at h
              by_cases hc : c = d
              · rw [if_pos hc] at h
                exact List.cons_prefix_cons.mpr ⟨hc, rmatchF_lit_prefix a fuel toks ds caps h⟩
              · rw [if_neg hc] at h
                exact absurd h (by simp)

/-- C8 counterexample: for the route `/a.b/:id` the retained literal prefix
is `/a.b/`; the anchored full pattern alone accepts the path `/aXb/7`
(capturing `7`, the dot matching any character), but the combined
prefix-plus-pattern check rejects it — the prefix test changes the
matching outcome. -/
theorem claim_C8_counterexample :
    ((compileRoute c8dotRoute).map (fun cr =>
      match cr.matcher with
      | Matcher.pattern pre toks =>
          (pre, rmatch toks "/aXb/7", matcherTest (Matcher.pattern pre toks) "/aXb/7")
      | Matcher.exact _ => ("", none, none))
     = some ("/a.b/", some ["7"], none)) :=
  rfl

/-- C8 amended: the literal-prefix reject never changes the matching
outcome for a route whose literal prefix contains no dot (the compiled
fragment already excludes the other regex metacharacters): for such a route
the combined prefix-plus-pattern check equals the anchored full-pattern
check on every path.  With a dot in the prefix the two can differ, as the
counterexample shows. -/
theorem claim_C8_amended (r : RouteConfig) (cr : CompiledRoute)
    (pre : String) (toks : List RTok)
    (hc : compileRoute r = some cr) (hm : cr.matcher = Matcher.pattern pre toks)
    (hsafe : ∀ c ∈ pre.toList, c ≠ '.') (path : String) :
    matcherTest cr.matcher path = rmatch toks path := by
  rw [hm]
  simp only [matcherTest]
  by_cases hsw : strStartsWith pre path = true
  · rw [if_pos hsw]
  · rw [if_neg hsw]
    cases hr : rmatch toks path with
    | none => rfl
    | some caps =>
        exfalso
        apply hsw
        simp only [compileRoute] at hc
        cases hcs : compileSegs r.parameterRegularExpressions
            (parseRouteControllerAction r).regexSegs with
        | none => rw [hcs] at hc; exact absurd hc (by simp)
        | some toks₀ =>
            rw [hcs] at hc
            simp only [Option.some.injEq] at hc
            subst hc
            simp only at hm
            by_cases hempty : (parseRouteControllerAction r).parameters.isEmpty = true
            · rw [if_pos hempty] at hm
              exact absurd hm (by simp)
            · rw [if_neg hempty] at hm
              simp only [Matcher.pattern.injEq] at hm
              obtain ⟨hpre, htoks⟩ := hm
              subst htoks
              have hsegs : (parseRouteControllerAction r).regexSegs =
                  parseSegs (r.getFullPath).toList := by
                simp [parseRouteControllerAction, parseRoutePathToRegex]
              by_cases hcol : (r.getFullPath).toList.contains ':' = true
              · -- pre is the colon-free literal head of the template
                have hpreL : pre.toList =
                    (r.getFullPath).toList.takeWhile (fun c => c ≠ ':') := by
                  rw [← hpre]
                  unfold routePre
                  rw [if_pos hcol]
                  rfl
                have hnocolon : ∀ c ∈ pre.toList, c ≠ ':' := by
                  intro c hcm
                  rw [hpreL] at hcm
                  exact of_decide_eq_true
                    (List.mem_takeWhile_imp (p := fun c => decide (c ≠ ':')) hcm)
                have hsplit : (r.getFullPath).toList =
                    pre.toList ++ (r.getFullPath).toList.dropWhile (fun c => c ≠ ':') := by
                  conv_lhs => rw [← List.takeWhile_append_dropWhile
                    (fun c => decide (c ≠ ':')) (r.getFullPath).toList]
                  rw [hpreL]
                have hparse : parseSegs ((r.getFullPath).toList) =
                    pre.toList.map Seg.lit ++
                      parseSegs ((r.getFullPath).toList.dropWhile (fun c => c ≠ ':')) := by
                  conv_lhs => rw [hsplit]
                  exact parseSegs_append_nocolon _ _ hnocolon
                rw [hsegs, hparse] at hcs
                obtain ⟨toks', htoks', _⟩ := compileSegs_lit_append _ _ _ _ hcs hsafe
                subst htoks'
                -- the successful full-pattern match forces the literal prefix
                simp only [rmatch, rmatchAux] at hr
                obtain ⟨capsChars, hrm, _⟩ := Option.map_eq_some'.mp hr
                have := rmatchF_lit_prefix pre.toList _ toks' path.toList capsChars hrm
                simpa [strStartsWith] using List.isPrefixOf_iff_prefix.mpr this
              · -- no colon in the template: the retained prefix is empty
                have hemp : pre = "" := by
                  rw [← hpre]
                  unfold routePre
                  rw [if_neg hcol]
                subst hemp
                simp [strStartsWith, List.isPrefixOf]

/-- C8 witness: on the route `/u/:id` (plain literal prefix `/u/`) the
combined check and the full pattern agree, here evaluated at the matching
path `/u/7`. -/
theorem claim_C8_witness :
    compileRoute c8okRoute = some c8okCr ∧
    c8okCr.matcher = Matcher.pattern "/u/" c8okToks ∧
    (∀ c ∈ ("/u/" : String).toList, c ≠ '.') ∧
    matcherTest c8okCr.matcher "/u/7" = rmatch c8okToks "/u/7" ∧
    rmatch c8okToks "/u/7" = some ["7"] :=
  ⟨rfl, rfl, by decide,
   claim_C8_amended c8okRoute c8okCr "/u/" c8okToks rfl rfl (by decide) "/u/7", rfl⟩

/-! ### C7 — query-string generation of resolveUrl -/

theorem foldl_push_filterMap (params : String → Value) (nm qp : String) :
    ∀ (fields : List String) (q₀ : List String),
      fields.foldl (fun q f =>
        match optChain (params nm) f with
        | Value.undef => q
        | v => q ++ [dotToUrlPath (if qp = "" then f else qp ++ "." ++ f) ++ "=" ++
            encodeURIComponent (toJSString v)]) q₀
      = q₀ ++ (fields.filterMap (fun f =>
          match optChain (params nm) f with
          | Value.undef => none
          | v => some ((if qp = "" then f else qp ++ "." ++ f), v))).map renderQueryPair
  | [], q₀ => by simp
  | f :: fields, q₀ => by
      simp only [List.foldl_cons, List.filterMap_cons]
      cases hacc : optChain (params nm) f with
      | undef => rw [foldl_push_filterMap params nm qp fields q₀]
      | str s =>
          rw [foldl_push_filterMap params nm qp fields _]
          simp [renderQueryPair]
      | obj o =>
          rw [foldl_push_filterMap params nm qp fields _]
          simp [renderQueryPair]
      | errs es =>
          rw [foldl_push_filterMap params nm qp fields _]
          simp [renderQueryPair]

theorem modifyPushes_eq (params : String → Value) (p : ParsedRouteParameter) :
    modifyPushes params p = (entriesOfParam params p).map renderQueryPair := by
  by_cases hq : p.query = true
  · simp only [modifyPushes, entriesOfParam, if_pos hq]
    cases p.property.type with
    | clazz fields => exact foldl_push_filterMap params p.getName _ fields []
    | any => cases params p.getName <;> simp [renderQueryPair]
    | validationSink => cases params p.getName <;> simp [renderQueryPair]
    | other => cases params p.getName <;> simp [renderQueryPair]
  · simp [modifyPushes, entriesOfParam, hq]

theorem queryFold_eq (params : String → Value) :
    ∀ (ps : List ParsedRouteParameter) (q₀ : List String),
      ps.foldl (fun q p => q ++ modifyPushes params p) q₀
        = q₀ ++ (definedQueryEntries params ps).map renderQueryPair
  | [], q₀ => by simp [definedQueryEntries]
  | p :: ps, q₀ => by
      simp only [List.foldl_cons, definedQueryEntries]
      rw [queryFold_eq params ps _, modifyPushes_eq]
      simp

theorem dotsExpand_append (a b : List Char) :
    dotsExpand (a ++ b) = dotsExpand a ++ dotsExpand b := by
  induction a with
  | nil => rfl
  | cons c a ih =>
      by_cases hc : c = '.' <;> simp [dotsExpand, hc, ih]

theorem dotsExpand_of_no_dot (a : List Char) (h : ∀ c ∈ a, c ≠ '.') :
    dotsExpand a = a := by
  induction a with
  | nil => rfl
  | cons c a ih =>
      have hc : c ≠ '.' := h c (by simp)
      simp [dotsExpand, hc, ih (fun d hd => h d (by simp [hd]))]

theorem replaceFirstBrk_past (a : List Char) (bl : List Char) (h : '[' ∉ a) :
    replaceFirstBrk (a ++ ']' :: '[' :: bl) = a ++ '[' :: bl := by
  induction a with
  | nil => rfl
  | cons c a ih =>
      have hnotin : '[' ∉ a := fun hm => h (by simp [hm])
      have step : replaceFirstBrk (c :: (a ++ ']' :: '[' :: bl)) =
          c :: replaceFirstBrk (a ++ ']' :: '[' :: bl) := by
        cases a with
        | nil =>
            by_cases hc : c = ']'
            · subst hc; rfl
            · rw [replaceFirstBrk.eq_def]
              split
              · rename_i heq; exact absurd heq (by simp)
              · rename_i rest heq
                injection heq with h1 _
                exact absurd h1 hc
              · rename_i c2 rest2 _ heq
                injection heq with h1 h2
                subst h1; subst h2; rfl
        | cons d a2 =>
            have hd : d ≠ '[' := fun hm => h (by simp [hm])
            rw [replaceFirstBrk.eq_def]
            split
            · rename_i heq; exact absurd heq (by simp)
            · rename_i rest heq
              injection heq with _ h2
              injection h2 with h3 _
              exact absurd h3 hd
            · rename_i c2 rest2 _ heq
              injection heq with h1 h2
              subst h1; subst h2; rfl
      rw [List.cons_append, step, ih hnotin]
      simp

/-- C7: `resolveUrl` appends a query string holding exactly one encoded
`key=value` pair per defined query-bound parameter (field-by-field for a
class-typed parameter), nothing for undefined values, each pair rendered
with the dotted-to-bracket key convention and an individually
percent-encoded value; and the dotted-to-bracket convention turns a dotted
path `a.b` into the key `a[b]`. -/
theorem claim_C7 (r : RouteConfig) (params : String → Value) (a b : String)
    (ha : ∀ c ∈ a.toList, c ≠ '.' ∧ c ≠ '[') (hb : ∀ c ∈ b.toList, c ≠ '.') :
    (routeUrl r params =
      (match definedQueryEntries params (parseRouteControllerAction r).parameters with
       | [] => substSegs (parseSegs (r.getFullPath).toList) params
       | es => substSegs (parseSegs (r.getFullPath).toList) params ++ "?" ++
           String.intercalate "&" (es.map renderQueryPair))) ∧
    dotToUrlPath (a ++ "." ++ b) = a ++ "[" ++ b ++ "]" := by
  constructor
  · simp only [routeUrl]
    rw [queryFold_eq params (parseRouteControllerAction r).parameters []]
    simp only [List.nil_append]
    cases hE : definedQueryEntries params (parseRouteControllerAction r).parameters with
    | nil => simp
    | cons e es => simp
  · have hdata : (a ++ "." ++ b).toList = a.toList ++ '.' :: b.toList := by
      show (a.data ++ ".".data ++ b.data) = a.data ++ '.' :: b.data
      simp
    have hmem : (a ++ "." ++ b).toList.contains '.' = true :=
      List.elem_iff.mpr (by rw [hdata]; simp)
    unfold dotToUrlPath
    rw [if_neg (by simp [hmem])]
    have hexp : dotsExpand ((a ++ "." ++ b).toList) =
        a.toList ++ ']' :: '[' :: dotsExpand b.toList := by
      rw [hdata, dotsExpand_append, dotsExpand_of_no_dot a.toList (fun c hc => (ha c hc).1)]
      rfl
    rw [hexp, dotsExpand_of_no_dot b.toList hb,
      replaceFirstBrk_past a.toList b.toList (fun hm => (ha '[' hm).2 rfl)]
    apply String.ext
    show a.data ++ '[' :: b.data ++ "]".data = (a.data ++ "[".data ++ b.data ++ "]".data)
    simp

/-- C7 witness: the characterization evaluated on the scenario route, where
`tab=posts` and the defined class field `a` (value `x y`) are emitted and
the undefined field `b` is omitted; the key convention example
`value.a = value[a]` is included. -/
theorem claim_C7_witness :
    (∀ c ∈ ("value" : String).toList, c ≠ '.' ∧ c ≠ '[') ∧
    (∀ c ∈ ("a" : String).toList, c ≠ '.') ∧
    (routeUrl c7route c7params =
      (match definedQueryEntries c7params (parseRouteControllerAction c7route).parameters with
       | [] => substSegs (parseSegs (c7route.getFullPath).toList) c7params
       | es => substSegs (parseSegs (c7route.getFullPath).toList) c7params ++ "?" ++
           String.intercalate "&" (es.map renderQueryPair))) ∧
    dotToUrlPath ("value" ++ "." ++ "a") = "value" ++ "[" ++ "a" ++ "]" ∧
    routeUrl c7route c7params = "/users/7?tab=posts&value[a]=x%20y" :=
  ⟨by decide, by decide,
   (claim_C7 c7route c7params "value" "a" (by decide) (by decide)).1,
   (claim_C7 c7route c7params "value" "a" (by decide) (by decide)).2,
   rfl⟩

/-! ### C1 — the validation-error sink -/

theorem buildArgs_ok_of_validators (sinkIdx : Option Nat) (caps : List String)
    (query bodyFields : Value) (injector : String → Value) (be : List VErrItem) :
    ∀ (l : List (Nat × ParsedRouteParameter)) (ve₀ be₀ : List VErrItem)
      (rr : List VErrItem × List VErrItem),
      runValidators sinkIdx caps query bodyFields l ve₀ be₀ = Except.ok rr →
      ∃ vs, buildArgs sinkIdx caps query bodyFields injector be l = Except.ok vs ∧
        vs.length = l.length ∧
        ∀ (m i : Nat) (p : ParsedRouteParameter),
          l.get? m = some (i, p) → sinkIdx = some i → p.isPartOfPath = false →
          vs.get? m = some (Value.errs be)
  | [], ve₀, be₀, rr, _ => ⟨[], rfl, rfl, fun m i p hm => by simp at hm⟩
  | (i, p) :: rest, ve₀, be₀, rr, h => by
      by_cases hpath : p.isPartOfPath = true
      · simp only [runValidators, if_pos hpath] at h
        obtain ⟨vs, hvs, hlen, hpos⟩ :=
          buildArgs_ok_of_validators sinkIdx caps query bodyFields injector be rest _ _ rr h
        refine ⟨(if p.property.type = PType.any then capRaw caps (p.regexPosition.getD 0)
            else p.property.conv (capRaw caps (p.regexPosition.getD 0))) :: vs, ?_, ?_, ?_⟩
        · simp only [buildArgs, if_pos hpath, hvs]
          rfl
        · simp [hlen]
        · intro m j pp hm hs hnp
          cases m with
          | zero =>
              simp only [List.get?_cons_zero, Option.some.injEq, Prod.mk.injEq] at hm
              rw [← hm.2] at hnp
              rw [hnp] at hpath
              exact absurd hpath (by simp)
          | succ m0 => exact hpos m0 j pp (by simpa using hm) hs hnp
      · by_cases hsink : sinkIdx = some i
        · simp only [runValidators, hpath, if_false, Bool.false_eq_true, if_pos hsink] at h
          obtain ⟨vs, hvs, hlen, hpos⟩ :=
            buildArgs_ok_of_validators sinkIdx caps query bodyFields injector be rest _ _ rr h
          refine ⟨Value.errs be :: vs, ?_, ?_, ?_⟩
          · simp only [buildArgs, hpath, Bool.false_eq_true, if_false, if_pos hsink, hvs]
            rfl
          · simp [hlen]
          · intro m j pp hm hs hnp
            cases m with
            | zero => rfl
            | succ m0 => exact hpos m0 j pp (by simpa using hm) hs hnp
        · by_cases hbody : p.body = true
          · simp only [runValidators, hpath, Bool.false_eq_true, if_false, hsink,
              if_pos hbody] at h
            obtain ⟨vs, hvs, hlen, hpos⟩ :=
              buildArgs_ok_of_validators sinkIdx caps query bodyFields injector be rest _ _ rr h
            refine ⟨p.property.conv bodyFields :: vs, ?_, ?_, ?_⟩
            · simp only [buildArgs, hpath, Bool.false_eq_true, if_false, hsink,
                if_pos hbody, hvs]
              rfl
            · simp [hlen]
            · intro m j pp hm hs hnp
              cases m with
              | zero =>
                  simp only [List.get?_cons_zero, Option.some.injEq, Prod.mk.injEq] at hm
                  rw [← hm.1] at hs
                  exact absurd hs hsink
              | succ m0 => exact hpos m0 j pp (by simpa using hm) hs hnp
          · by_cases hquery : p.query = true
            · simp only [runValidators, hpath, Bool.false_eq_true, if_false, hsink,
                hbody, if_pos hquery] at h
              cases hqa : queryAccess query
                  (match p.typePath with | none => p.getName | some tp => tp) with
              | error e => rw [hqa] at h; exact absurd h (by simp)
              | ok qv =>
                  rw [hqa] at h
                  obtain ⟨vs, hvs, hlen, hpos⟩ :=
                    buildArgs_ok_of_validators sinkIdx caps query bodyFields injector be
                      rest _ _ rr h
                  refine ⟨(if p.property.type = PType.any then qv else p.property.conv qv)
                      :: vs, ?_, ?_, ?_⟩
                  · simp only [buildArgs, hpath, Bool.false_eq_true, if_false, hsink,
                      hbody, if_pos hquery, hqa, hvs]
                    rfl
                  · simp [hlen]
                  · intro m j pp hm hs hnp
                    cases m with
                    | zero =>
                        simp only [List.get?_cons_zero, Option.some.injEq, Prod.mk.injEq] at hm
                        rw [← hm.1] at hs
                        exact absurd hs hsink
                    | succ m0 => exact hpos m0 j pp (by simpa using hm) hs hnp
            · simp only [runValidators, hpath, Bool.false_eq_true, if_false, hsink,
                hbody, hquery] at h
              obtain ⟨vs, hvs, hlen, hpos⟩ :=
                buildArgs_ok_of_validators sinkIdx caps query bodyFields injector be
                  rest _ _ rr h
              refine ⟨injector p.property.classId :: vs, ?_, ?_, ?_⟩
              · simp only [buildArgs, hpath, Bool.false_eq_true, if_false, hsink,
                  hbody, hquery, hvs]
                rfl
              · simp [hlen]
              · intro m j pp hm hs hnp
                cases m with
                | zero =>
                    simp only [List.get?_cons_zero, Option.some.injEq, Prod.mk.injEq] at hm
                    rw [← hm.1] at hs
                    exact absurd hs hsink
                | succ m0 => exact hpos m0 j pp (by simpa using hm) hs hnp

/-- C1 counterexample: the route `GET /u/:id` has a validation-error-sink
parameter, yet dispatching the request `/u/abc`, whose path parameter fails
validation, raises a `ValidationError` carrying the path error — the sink
does not receive path/query errors and does not suppress this failure. -/
theorem claim_C1_counterexample :
    (parseRouteControllerAction cexC1route).customValidationErrorHandling = some 0 ∧
    sinkHandled (parseRouteControllerAction cexC1route) = true ∧
    ((buildRouter [cexC1route]).map (fun crs =>
      (dispatchList crs { method := "GET", url := "/u/abc" }).map (fun res =>
        res.parameters.map (fun f => f (fun _ => Value.undef))))
     = some (some (some (Except.error (DispatchError.validation
         [⟨"invalid_number", "No number given", "id"⟩]))))) :=
  ⟨rfl, rfl, rfl⟩

/-- C1 amended: on a route whose sink parameter is reached by the
code-generation loop, the accumulated *body* errors are injected into the
sink parameter's value and only the body-error failure is suppressed;
accumulated path/query errors still fail the dispatch with a
`ValidationError` carrying exactly them.  On a route without a (reached)
sink, dispatch fails with the body errors alone when any exist, else with
the path/query errors when any exist — the two lists are never merged. -/
theorem claim_C1_amended (pr : ParsedRoute) (caps : List String)
    (query bodyFields : Value) (injector : String → Value) (ve be : List VErrItem)
    (h : runValidators pr.customValidationErrorHandling caps query bodyFields
          pr.parameters.enum [] [] = Except.ok (ve, be)) :
    (sinkHandled pr = true → ve ≠ [] →
      materializeParams pr caps query bodyFields injector =
        Except.error (DispatchError.validation ve)) ∧
    (sinkHandled pr = true → ve = [] →
      ∃ args, materializeParams pr caps query bodyFields injector = Except.ok args ∧
        ∀ i, pr.customValidationErrorHandling = some i →
          args.get? i = some (Value.errs be)) ∧
    (sinkHandled pr = false → be ≠ [] →
      materializeParams pr caps query bodyFields injector =
        Except.error (DispatchError.validation be)) ∧
    (sinkHandled pr = false → be = [] → ve ≠ [] →
      materializeParams pr caps query bodyFields injector =
        Except.error (DispatchError.validation ve)) := by
  have hkey : materializeParams pr caps query bodyFields injector =
      (if sinkHandled pr = false ∧ be ≠ [] then Except.error (DispatchError.validation be)
       else if ve ≠ [] then Except.error (DispatchError.validation ve)
       else buildArgs pr.customValidationErrorHandling caps query bodyFields injector be
         pr.parameters.enum) := by
    simp only [materializeParams, h]
    rfl
  refine ⟨?_, ?_, ?_, ?_⟩
  · intro hs hve
    rw [hkey, if_neg (by simp [hs]), if_pos hve]
  · intro hs hve
    obtain ⟨vs, hvs, hlen, hposn⟩ :=
      buildArgs_ok_of_validators pr.customValidationErrorHandling caps query bodyFields
        injector be pr.parameters.enum [] [] (ve, be) h
    refine ⟨vs, ?_, ?_⟩
    · rw [hkey, if_neg (by simp [hs]), if_neg (by simp [hve])]
      exact hvs
    · intro i hidx
      have hsink2 := hs
      unfold sinkHandled at hsink2
      rw [hidx] at hsink2
      have hsink3 : (match pr.parameters.get? i with
          | some p => !p.isPartOfPath
          | none => false) = true := hsink2
      cases hp : pr.parameters.get? i with
      | none => rw [hp] at hsink3; simp at hsink3
      | some p =>
          rw [hp] at hsink3
          have henum : pr.parameters.enum.get? i = some (i, p) := by
            rw [List.get?_eq_getElem?, List.getElem?_enum, ← List.get?_eq_getElem?, hp]
            rfl
          exact hposn i i p henum hidx (by simpa using hsink3)
  · intro hs hbe
    rw [hkey, if_pos ⟨hs, hbe⟩]
  · intro hs hbe hve
    rw [hkey, if_neg (by simp [hbe]), if_pos hve]

/-- C1 witness: on the sink route with a failing body-bound parameter and
no path/query errors, materialization succeeds and the sink argument (index
0) carries exactly the accumulated body error. -/
theorem claim_C1_witness :
    (runValidators (parseRouteControllerAction c1SinkRoute).customValidationErrorHandling
        [] (Value.obj []) (Value.obj []) (parseRouteControllerAction c1SinkRoute).parameters.enum
        [] [] = Except.ok ([], [⟨"minLength", "Min length is 3", "name"⟩])) ∧
    sinkHandled (parseRouteControllerAction c1SinkRoute) = true ∧
    ∃ args, materializeParams (parseRouteControllerAction c1SinkRoute) [] (Value.obj [])
        (Value.obj []) (fun _ => Value.undef) = Except.ok args ∧
      ∀ i, (parseRouteControllerAction c1SinkRoute).customValidationErrorHandling = some i →
        args.get? i = some (Value.errs [⟨"minLength", "Min length is 3", "name"⟩]) :=
  ⟨rfl, rfl,
   (claim_C1_amended (parseRouteControllerAction c1SinkRoute) [] (Value.obj [])
     (Value.obj []) (fun _ => Value.undef) [] [⟨"minLength", "Min length is 3", "name"⟩]
     rfl).2.1 rfl rfl⟩

/-! ### C6 — round-trip of matching and URL resolution -/

theorem rmatchF_rebuild : ∀ (fuel : Nat),
    (∀ (toks : List RTok) (ds : List Char) (caps : List (List Char)),
      rmatchF fuel none toks ds = some caps → (∀ t ∈ toks, t ≠ RTok.anyChar) →
      rebuild toks caps = some ds)
    ∧ (∀ (g : GroupPat) (acc : List Char) (ts : List RTok) (ds : List Char)
        (caps : List (List Char)),
      rmatchF fuel (some (g, acc)) ts ds = some caps → (∀ t ∈ ts, t ≠ RTok.anyChar) →
      ∃ grp caps2 rest, caps = (acc.reverse ++ grp) :: caps2 ∧ ds = grp ++ rest ∧
        rebuild ts caps2 = some rest) := by
  intro fuel
  induction fuel with
  | zero =>
      constructor
      · intro toks ds caps h
        exact absurd h (by simp [rmatchF])
      · intro g acc ts ds caps h
        exact absurd h (by simp [rmatchF])
  | succ fuel ih =>
      constructor
      · intro toks ds caps h hna
        cases toks with
        | nil =>
            cases ds with
            | nil =>
                simp only [rmatchF, Option.some.injEq] at h
                subst h
                rfl
            | cons d ds => exact absurd h (by simp [rmatchF])
        | cons t ts =>
            cases t with
            | lit c =>
                cases ds with
                | nil => exact absurd h (by simp [rmatchF])
                | cons d ds =>
                    simp only [rmatchF] at h
                    by_cases hc : c = d
                    · rw [if_pos hc] at h
                      have := ih.1 ts ds caps h (fun t ht => hna t (by simp [ht]))
                      simp [rebuild, this, hc]
                    · rw [if_neg hc] at h
                      exact absurd h (by simp)
            | anyChar => exact absurd rfl (hna RTok.anyChar (by simp))
            | group g =>
                cases ds with
                | nil => exact absurd h (by simp [rmatchF])
                | cons d ds =>
                    simp only [rmatchF] at h
                    by_cases hd : g.allow d = true
                    · rw [if_pos hd] at h
                      obtain ⟨grp, caps2, rest, hcaps, hds, hreb⟩ :=
                        ih.2 g [d] ts ds caps h (fun t ht => hna t (by simp [ht]))
                      subst hcaps
                      subst hds
                      simp [rebuild, hreb]
                    · rw [if_neg hd] at h
                      exact absurd h (by simp)
      · intro g acc ts ds caps h hna
        cases ds with
        | nil =>
            simp only [rmatchF] at h
            cases hin : rmatchF fuel none ts [] with
            | none => rw [hin] at h; exact absurd h (by simp)
            | some caps0 =>
                rw [hin] at h
                simp only [Option.map_some', Option.some.injEq] at h
                subst h
                exact ⟨[], caps0, [], by simp, by simp, ih.1 ts [] caps0 hin hna⟩
        | cons d ds =>
            simp only [rmatchF] at h
            by_cases hd : g.allow d = true
            · rw [if_pos hd] at h
              cases hin : rmatchF fuel (some (g, d :: acc)) ts ds with
              | some r =>
                  rw [hin] at h
                  simp only [Option.some.injEq] at h
                  subst h
                  obtain ⟨grp, caps2, rest, hcaps, hds, hreb⟩ :=
                    ih.2 g (d :: acc) ts ds r hin hna
                  refine ⟨d :: grp, caps2, rest, ?_, by simp [hds], hreb⟩
                  rw [hcaps]
                  simp
              | none =>
                  rw [hin] at h
                  cases hfb : rmatchF fuel none ts (d :: ds) with
                  | none => rw [hfb] at h; exact absurd h (by simp)
                  | some caps0 =>
                      rw [hfb] at h
                      simp only [Option.map_some', Option.some.injEq] at h
                      subst h
                      exact ⟨[], caps0, d :: ds, by simp, by simp,
                        ih.1 ts (d :: ds) caps0 hfb hna⟩
            · rw [if_neg hd] at h
              cases hfb : rmatchF fuel none ts (d :: ds) with
              | none => rw [hfb] at h; exact absurd h (by simp)
              | some caps0 =>
                  rw [hfb] at h
                  simp only [Option.map_some', Option.some.injEq] at h
                  subst h
                  exact ⟨[], caps0, d :: ds, by simp, by simp,
                    ih.1 ts (d :: ds) caps0 hfb hna⟩

theorem rebuild_length :
    ∀ (toks : List RTok) (caps : List (List Char)) (ds : List Char),
      rebuild toks caps = some ds → caps.length = countGroups toks
  | [], [], _, _ => rfl
  | [], _ :: _, _, h => absurd h (by simp [rebuild])
  | RTok.lit c :: ts, caps, ds, h => by
      simp only [rebuild] at h
      cases hin : rebuild ts caps with
      | none => rw [hin] at h; exact absurd h (by simp)
      | some ds0 =>
          rw [hin] at h
          simp only [countGroups]
          exact rebuild_length ts caps ds0 hin
  | RTok.anyChar :: ts, caps, ds, h => absurd h (by simp [rebuild])
  | RTok.group g :: ts, [], ds, h => absurd h (by simp [rebuild])
  | RTok.group g :: ts, cap :: caps, ds, h => by
      simp only [rebuild] at h
      cases hin : rebuild ts caps with
      | none => rw [hin] at h; exact absurd h (by simp)
      | some ds0 =>
          rw [hin] at h
          simp only [countGroups, List.length_cons]
          rw [rebuild_length ts caps ds0 hin]

theorem compileSegs_noAny :
    ∀ (segs : List Seg) (res : List (String × GroupPat)) (toks : List RTok),
      compileSegs res segs = some toks → (∀ s ∈ segs, segPlain s = true) →
      ∀ t ∈ toks, t ≠ RTok.anyChar
  | [], _, toks, h, _ => by
      simp [compileSegs] at h
      subst h
      simp
  | s :: rest, res, toks, h, hp => by
      simp only [compileSegs] at h
      cases hs : compileSeg res s with
      | none => rw [hs] at h; exact absurd h (by simp)
      | some a =>
          cases hr : compileSegs res rest with
          | none => rw [hs, hr] at h; exact absurd h (by simp)
          | some b =>
              rw [hs, hr] at h
              simp only [Option.some.injEq] at h
              subst h
              intro t ht
              rcases List.mem_append.mp ht with hta | htb
              · cases s with
                | lit c =>
                    have hpl := hp (Seg.lit c) (by simp)
                    simp only [segPlain, Bool.and_eq_true, Bool.not_eq_true] at hpl
                    have hc : ¬(c = '.') := by
                      intro hh
                      rw [hh] at hpl
                      simp at hpl
                    simp only [compileSeg, if_neg hc] at hs
                    by_cases hm : isRegexMeta c = true
                    · rw [hm] at hpl; simp at hpl
                    · simp only [hm, Bool.false_eq_true, if_false,
                        Option.some.injEq] at hs
                      subst hs
                      simp only [List.mem_singleton] at hta
                      subst hta
                      simp
                | param nm =>
                    simp only [compileSeg, Option.some.injEq] at hs
                    subst hs
                    simp only [List.mem_singleton] at hta
                    subst hta
                    simp
              · exact compileSegs_noAny rest res b hr
                  (fun s2 hs2 => hp s2 (by simp [hs2])) t htb

theorem substChars_rebuild :
    ∀ (segs : List Seg) (res : List (String × GroupPat)) (toks : List RTok)
      (caps : List (List Char)) (ds : List Char) (params : String → Value),
      compileSegs res segs = some toks →
      (∀ s ∈ segs, segPlain s = true) →
      rebuild toks caps = some ds →
      (∀ (k : Nat) (n : String), (segNames segs).get? k = some n →
        params n = Value.str (String.mk (caps.getD k []))) →
      substChars params segs = ds
  | [], res, toks, caps, ds, params, hc, _, hreb, _ => by
      simp only [compileSegs, Option.some.injEq] at hc
      subst hc
      cases caps with
      | nil =>
          simp only [rebuild, Option.some.injEq] at hreb
          subst hreb
          rfl
      | cons cap caps => exact absurd hreb (by simp [rebuild])
  | s :: rest, res, toks, caps, ds, params, hc, hp, hreb, hk => by
      simp only [compileSegs] at hc
      cases hs : compileSeg res s with
      | none => rw [hs] at hc; exact absurd hc (by simp)
      | some a =>
          cases hr : compileSegs res rest with
          | none => rw [hs, hr] at hc; exact absurd hc (by simp)
          | some b =>
              rw [hs, hr] at hc
              simp only [Option.some.injEq] at hc
              subst hc
              cases s with
              | lit c =>
                  have hpl := hp (Seg.lit c) (by simp)
                  simp only [segPlain, Bool.and_eq_true, Bool.not_eq_true] at hpl
                  have hdot : ¬(c = '.') := by
                    intro hh
                    rw [hh] at hpl
                    simp at hpl
                  have hmeta : ¬(isRegexMeta c = true) := by
                    intro hh
                    rw [hh] at hpl
                    simp at hpl
                  simp only [compileSeg, if_neg hdot, hmeta, Bool.false_eq_true, if_false,
                    Option.some.injEq] at hs
                  subst hs
                  simp only [List.cons_append, rebuild] at hreb
                  cases hin : rebuild (b) caps with
                  | none =>
                      rw [List.append_eq, List.nil_append] at hreb
                      rw [hin] at hreb
                      exact absurd hreb (by simp)
                  | some ds0 =>
                      rw [List.append_eq, List.nil_append] at hreb
                      rw [hin] at hreb
                      simp only [Option.map_some', Option.some.injEq] at hreb
                      subst hreb
                      simp only [substChars]
                      rw [substChars_rebuild rest res b caps ds0 params hr
                        (fun s2 hs2 => hp s2 (by simp [hs2])) hin
                        (fun k n hkn => hk k n (by simpa [segNames] using hkn))]
              | param nm =>
                  simp only [compileSeg, Option.some.injEq] at hs
                  subst hs
                  simp only [List.cons_append, List.nil_append] at hreb
                  cases caps with
                  | nil => exact absurd hreb (by simp [rebuild])
                  | cons cap caps =>
                      simp only [rebuild] at hreb
                      cases hin : rebuild b caps with
                      | none => rw [hin] at hreb; exact absurd hreb (by simp)
                      | some ds0 =>
                          rw [hin] at hreb
                          simp only [Option.map_some', Option.some.injEq] at hreb
                          subst hreb
                          simp only [substChars]
                          have hv := hk 0 nm (by simp [segNames])
                          rw [hv]
                          simp only [toJSString, List.getD_cons_zero]
                          have hrest := substChars_rebuild rest res b caps ds0 params hr
                            (fun s2 hs2 => hp s2 (by simp [hs2])) hin
                            (fun k n hkn => by
                              have := hk (k + 1) n (by simpa [segNames] using hkn)
                              simpa using this)
                          rw [hrest]
                          rfl

theorem lastIdxOfAux_of_not_mem :
    ∀ (tokens : List String) (i : Nat) (n : String), n ∉ tokens →
      lastIdxOfAux i n tokens = none
  | [], _, _, _ => rfl
  | t :: rest, i, n, h => by
      have hne : ¬(t = n) := fun hh => h (by simp [hh])
      simp only [lastIdxOfAux, lastIdxOfAux_of_not_mem rest (i + 1) n
        (fun hm => h (by simp [hm]))]
      simp [hne]

theorem lastIdxOfAux_of_nodup :
    ∀ (tokens : List String) (i k : Nat) (n : String), tokens.Nodup →
      tokens.get? k = some n → lastIdxOfAux i n tokens = some (i + k)
  | [], _, k, _, _, hk => absurd hk (by simp)
  | t :: rest, i, k, n, hnd, hk => by
      cases k with
      | zero =>
          simp only [List.get?_cons_zero, Option.some.injEq] at hk
          subst hk
          have hnotin : t ∉ rest := (List.nodup_cons.mp hnd).1
          simp [lastIdxOfAux, lastIdxOfAux_of_not_mem rest (i + 1) t hnotin]
      | succ k0 =>
          simp only [List.get?_cons_succ] at hk
          have := lastIdxOfAux_of_nodup rest (i + 1) k0 n (List.nodup_cons.mp hnd).2 hk
          simp only [lastIdxOfAux, this]
          exact congrArg some (by omega)

theorem params_shape (r : RouteConfig) :
    ∀ p ∈ (parseRouteControllerAction r).parameters,
      p.regexPosition = aListLookup (parseRoutePathToRegex r).parameterNames p.getName := by
  intro p hp
  simp only [parseRouteControllerAction, List.mem_map] at hp
  obtain ⟨prop, _, hp2⟩ := hp
  by_cases hopt : (match cfgLookup r.parameters prop.name with
      | some c => c.optional
      | none => false) = true
  · rw [if_pos hopt] at hp2
    rw [← hp2]
    rfl
  · rw [if_neg hopt] at hp2
    rw [← hp2]
    rfl

theorem objGet_map_of_mem {α : Type} (g : α → Value) (nameOf : α → String) :
    ∀ (l : List α) (n : String) (v : Value),
      (∀ x ∈ l, nameOf x = n → g x = v) → (∃ x ∈ l, nameOf x = n) →
      objGet (l.map (fun x => (nameOf x, g x))) n = v
  | [], _, _, _, hex => absurd hex (by simp)
  | x :: l, n, v, hall, hex => by
      by_cases hx : nameOf x = n
      · simp only [List.map_cons, objGet, hx, if_pos rfl]
        exact hall x (by simp) hx
      · simp only [List.map_cons, objGet, if_neg hx]
        obtain ⟨y, hy, hyn⟩ := hex
        rcases List.mem_cons.mp hy with h1 | h2
        · rw [h1] at hyn; exact absurd hyn hx
        · exact objGet_map_of_mem g nameOf l n v
            (fun z hz => hall z (by simp [hz])) ⟨y, h2, hyn⟩

theorem runValidators_allpath (sinkIdx : Option Nat) (caps : List String)
    (query bodyFields : Value) :
    ∀ (l : List (Nat × ParsedRouteParameter)) (ve₀ be₀ : List VErrItem),
      (∀ ip ∈ l, ip.2.isPartOfPath = true ∧ ip.2.property.type = PType.any) →
      runValidators sinkIdx caps query bodyFields l ve₀ be₀ = Except.ok (ve₀, be₀)
  | [], _, _, _ => rfl
  | (i, p) :: rest, ve₀, be₀, hall => by
      have h1 := hall (i, p) (by simp)
      simp only [runValidators, if_pos h1.1, if_pos h1.2]
      rw [show ve₀ ++ [] = ve₀ from by simp]
      exact runValidators_allpath sinkIdx caps query bodyFields rest ve₀ be₀
        (fun ip hip => hall ip (by simp [hip]))

theorem buildArgs_allpath (sinkIdx : Option Nat) (caps : List String)
    (query bodyFields : Value) (injector : String → Value) (be : List VErrItem) :
    ∀ (l : List (Nat × ParsedRouteParameter)),
      (∀ ip ∈ l, ip.2.isPartOfPath = true ∧ ip.2.property.type = PType.any) →
      buildArgs sinkIdx caps query bodyFields injector be l =
        Except.ok (l.map (fun ip => capRaw caps (ip.2.regexPosition.getD 0)))
  | [], _ => rfl
  | (i, p) :: rest, hall => by
      have h1 := hall (i, p) (by simp)
      simp only [buildArgs, if_pos h1.1, if_pos h1.2]
      rw [buildArgs_allpath sinkIdx caps query bodyFields injector be rest
        (fun ip hip => hall ip (by simp [hip]))]
      rfl

theorem materialize_allpath (pr : ParsedRoute) (caps : List String)
    (query bodyFields : Value) (injector : String → Value)
    (hall : ∀ p ∈ pr.parameters, p.isPartOfPath = true ∧ p.property.type = PType.any) :
    materializeParams pr caps query bodyFields injector =
      Except.ok (pr.parameters.map (fun p => capRaw caps (p.regexPosition.getD 0))) := by
  have hallE : ∀ ip ∈ pr.parameters.enum, ip.2.isPartOfPath = true ∧
      ip.2.property.type = PType.any := by
    intro ip hip
    have hm : ip.2 ∈ pr.parameters.enum.map Prod.snd := List.mem_map_of_mem Prod.snd hip
    rw [List.enum_map_snd] at hm
    exact hall ip.2 hm
  have hrv := runValidators_allpath pr.customValidationErrorHandling caps query bodyFields
    pr.parameters.enum [] [] hallE
  have hba := buildArgs_allpath pr.customValidationErrorHandling caps query bodyFields
    injector [] pr.parameters.enum hallE
  have hmap : pr.parameters.enum.map
      (fun ip => capRaw caps (ip.2.regexPosition.getD 0)) =
      pr.parameters.map (fun p => capRaw caps (p.regexPosition.getD 0)) := by
    rw [show (fun ip : Nat × ParsedRouteParameter =>
        capRaw caps (ip.2.regexPosition.getD 0)) =
      (fun p : ParsedRouteParameter => capRaw caps (p.regexPosition.getD 0)) ∘ Prod.snd
      from rfl, ← List.map_map, List.enum_map_snd]
  have hkey : materializeParams pr caps query bodyFields injector =
      (if sinkHandled pr = false ∧ ([] : List VErrItem) ≠ [] then
         Except.error (DispatchError.validation [])
       else if ([] : List VErrItem) ≠ [] then Except.error (DispatchError.validation [])
       else buildArgs pr.customValidationErrorHandling caps query bodyFields injector []
         pr.parameters.enum) := by
    simp only [materializeParams, hrv]
    rfl
  rw [hkey, if_neg (by simp), if_neg (by simp), hba, hmap]

theorem dispatchGo_some_split (ml p : String) (q b : Value) :
    ∀ (crs : List CompiledRoute) (res : ResolvedController),
      dispatchGo ml p q b crs = some res →
      ∃ crs₁ cr crs₂ caps, crs = crs₁ ++ cr :: crs₂ ∧
        (∀ c ∈ crs₁, matchRouteFull c ml p = none) ∧
        matchRouteFull cr ml p = some caps ∧ res = mkResolved cr caps q b
  | [], res, h => absurd h (by simp [dispatchGo])
  | cr :: crs, res, h => by
      cases hm : matchRouteFull cr ml p with
      | some caps =>
          simp only [dispatchGo, hm, Option.some.injEq] at h
          exact ⟨[], cr, crs, caps, rfl, by simp, hm, h.symm⟩
      | none =>
          simp only [dispatchGo, hm] at h
          obtain ⟨crs₁, cr2, crs₂, caps, hsplit, hfail, hmatch, hres⟩ :=
            dispatchGo_some_split ml p q b crs res h
          refine ⟨cr :: crs₁, cr2, crs₂, caps, by simp [hsplit], ?_, hmatch, hres⟩
          intro c hc
          rcases List.mem_cons.mp hc with h1 | h2
          · rw [h1]; exact hm
          · exact hfail c h2

theorem dispatchGo_of_split (ml p : String) (q b : Value) :
    ∀ (crs₁ : List CompiledRoute) (cr : CompiledRoute) (crs₂ : List CompiledRoute)
      (caps : List String),
      (∀ c ∈ crs₁, matchRouteFull c ml p = none) →
      matchRouteFull cr ml p = some caps →
      dispatchGo ml p q b (crs₁ ++ cr :: crs₂) = some (mkResolved cr caps q b)
  | [], cr, crs₂, caps, _, hm => by simp [dispatchGo, hm]
  | c :: crs₁, cr, crs₂, caps, hfail, hm => by
      have hc := hfail c (by simp)
      simp only [List.cons_append, dispatchGo, hc]
      exact dispatchGo_of_split ml p q b crs₁ cr crs₂ caps
        (fun c2 hc2 => hfail c2 (by simp [hc2])) hm

theorem buildRouter_mem :
    ∀ (routes : List RouteConfig) (crs : List CompiledRoute) (cr : CompiledRoute),
      buildRouter routes = some crs → cr ∈ crs →
      ∃ r ∈ routes, compileRoute r = some cr
  | [], crs, cr, h, hm => by
      simp only [buildRouter, Option.some.injEq] at h
      subst h
      exact absurd hm (by simp)
  | r :: rest, crs, cr, h, hm => by
      simp only [buildRouter] at h
      cases hc : compileRoute r with
      | none => rw [hc] at h; exact absurd h (by simp)
      | some cr0 =>
          cases hb : buildRouter rest with
          | none => rw [hc, hb] at h; exact absurd h (by simp)
          | some crs0 =>
              rw [hc, hb] at h
              simp only [Option.some.injEq] at h
              subst h
              rcases List.mem_cons.mp hm with h1 | h2
              · exact ⟨r, by simp, by rw [hc, h1]⟩
              · obtain ⟨r2, hr2, hcr2⟩ := buildRouter_mem rest crs0 cr hb h2
                exact ⟨r2, by simp [hr2], hcr2⟩

theorem compileRoute_inv (r : RouteConfig) (cr : CompiledRoute)
    (h : compileRoute r = some cr) :
    cr.routeConfig = r ∧ cr.parsedRoute = parseRouteControllerAction r ∧
    cr.methodLower = jsToLower r.httpMethod ∧
    ∃ toks, compileSegs r.parameterRegularExpressions
        (parseRouteControllerAction r).regexSegs = some toks ∧
      cr.matcher = (if (parseRouteControllerAction r).parameters.isEmpty
        then Matcher.exact r.getFullPath
        else Matcher.pattern (routePre r.getFullPath) toks) := by
  simp only [compileRoute] at h
  cases hcs : compileSegs r.parameterRegularExpressions
      (parseRouteControllerAction r).regexSegs with
  | none => rw [hcs] at h; exact absurd h (by simp)
  | some toks =>
      rw [hcs] at h
      simp only [Option.some.injEq] at h
      subst h
      exact ⟨rfl, rfl, rfl, toks, rfl, rfl⟩

theorem resolveUrlList_of_split (name : String) (params : String → Value) :
    ∀ (pre : List RouteConfig) (r : RouteConfig) (post : List RouteConfig),
      (∀ r2 ∈ pre, r2.name ≠ name) → r.name = name →
      resolveUrlList (pre ++ r :: post) name params = Except.ok (routeUrl r params)
  | [], r, post, _, hr => by simp [resolveUrlList, hr]
  | r2 :: pre, r, post, hfail, hr => by
      have h2 := hfail r2 (by simp)
      simp only [List.cons_append, resolveUrlList, if_neg h2]
      exact resolveUrlList_of_split name params pre r post
        (fun r3 h3 => hfail r3 (by simp [h3])) hr

theorem pathOfUrl_no_qmark (u : String) :
    (pathOfUrl u).toList.contains '?' = true → False := by
  unfold pathOfUrl
  by_cases hc : u.toList.contains '?' = true
  · rw [if_pos hc]
    intro h
    have hmem : '?' ∈ (String.mk (u.toList.takeWhile (fun c => c ≠ '?'))).toList :=
      List.elem_iff.mp h
    have hmem2 : '?' ∈ u.toList.takeWhile (fun c => c ≠ '?') := hmem
    have := List.mem_takeWhile_imp (p := fun c => decide (c ≠ '?')) hmem2
    simp at this
  · rw [if_neg hc]
    intro h
    exact hc h

theorem pathOfUrl_idem (u : String) : pathOfUrl (pathOfUrl u) = pathOfUrl u := by
  show (if (pathOfUrl u).toList.contains '?' = true then
      String.mk ((pathOfUrl u).toList.takeWhile (fun c => c ≠ '?'))
    else pathOfUrl u) = pathOfUrl u
  rw [if_neg (fun h => pathOfUrl_no_qmark u h)]

theorem definedQueryEntries_nil (pm : String → Value) :
    ∀ (ps : List ParsedRouteParameter), (∀ p ∈ ps, p.query = false) →
      definedQueryEntries pm ps = []
  | [], _ => rfl
  | p :: ps, h => by
      have hq : p.query = false := h p (by simp)
      simp only [definedQueryEntries, entriesOfParam, hq]
      simp only [Bool.false_eq_true, if_false, List.nil_append]
      exact definedQueryEntries_nil pm ps (fun p2 h2 => h p2 (by simp [h2]))

/-- C6: round-trip for path-parameter-only routes.  If a request is
dispatched to a route all of whose handler parameters are path-bound (of
the passthrough `any` type, not query-bound), the route's template is in
the plain literal fragment with distinct token names each covered by a
handler parameter, and the route is the first of its name in the registry,
then resolving the route's name with the extracted parameter values
reproduces exactly the matched request path, and dispatching that path
again with the same method selects the same route and materializes the
same parameter values. -/
theorem claim_C6
    (routes : List RouteConfig) (crs : List CompiledRoute) (req : HttpRequest)
    (hbuild : buildRouter routes = some crs)
    (res : ResolvedController) (hdisp : dispatchList crs req = some res)
    (r : RouteConfig) (hres : res.routeConfig = r)
    (hplain : ∀ s ∈ parseSegs (r.getFullPath).toList, segPlain s = true)
    (hnodup : (segNames (parseSegs (r.getFullPath).toList)).Nodup)
    (hall : ∀ p ∈ (parseRouteControllerAction r).parameters,
        p.isPartOfPath = true ∧ p.property.type = PType.any ∧ p.query = false)
    (hcover : ∀ n ∈ segNames (parseSegs (r.getFullPath).toList),
        ∃ p ∈ (parseRouteControllerAction r).parameters, p.getName = n)
    (rpre rpost : List RouteConfig) (hsplitR : routes = rpre ++ r :: rpost)
    (hfirst : ∀ r2 ∈ rpre, r2.name ≠ r.name)
    (inj : String → Value) (vals : List Value)
    (f : (String → Value) → Except DispatchError (List Value))
    (hf : res.parameters = some f) (hvals : f inj = Except.ok vals) :
    resolveUrlList routes r.name
        (paramMap ((parseRouteControllerAction r).parameters.map (fun p => p.getName))
          vals) = Except.ok (pathOfUrl req.url) ∧
    ∃ res2, dispatchList crs
        { method := req.method, url := pathOfUrl req.url,
          bodyFields := req.bodyFields } = some res2 ∧ res2.routeConfig = r ∧
      ∃ f2, res2.parameters = some f2 ∧ f2 inj = Except.ok vals := by
  obtain ⟨crs₁, cr, crs₂, caps, hsplit, hfail, hmatch, hresEq⟩ :=
    dispatchGo_some_split (jsToLower req.method) (pathOfUrl req.url)
      (queryOfUrl req.url) req.bodyFields crs res hdisp
  have hcrmem : cr ∈ crs := by rw [hsplit]; simp
  obtain ⟨r0, hr0mem, hcomp⟩ := buildRouter_mem routes crs cr hbuild hcrmem
  obtain ⟨hrc, hpr, hml, toks, hcs, hmatcher⟩ := compileRoute_inv r0 cr hcomp
  have hcrr : cr.routeConfig = r := by rw [hresEq] at hres; exact hres
  have hr0 : r = r0 := by rw [← hcrr, hrc]
  subst hr0
  -- the materializer and the extracted values
  have hallPA : ∀ p ∈ (parseRouteControllerAction r).parameters,
      p.isPartOfPath = true ∧ p.property.type = PType.any :=
    fun p hp => ⟨(hall p hp).1, (hall p hp).2.1⟩
  have hf2 := hf
  rw [hresEq] at hf2
  simp only [mkResolved] at hf2
  have hfne : ¬(parseRouteControllerAction r).parameters.isEmpty = true := by
    by_cases hE : cr.parsedRoute.parameters.isEmpty = true
    · rw [if_pos hE] at hf2; exact absurd hf2 (by simp)
    · rw [hpr] at hE; exact hE
  rw [if_neg (by rw [hpr]; exact hfne)] at hf2
  simp only [Option.some.injEq] at hf2
  have hvals2 : vals = (parseRouteControllerAction r).parameters.map
      (fun p => capRaw caps (p.regexPosition.getD 0)) := by
    rw [← hf2] at hvals
    simp only [] at hvals
    rw [hpr, materialize_allpath _ _ _ _ _ hallPA] at hvals
    simp only [Except.ok.injEq] at hvals
    exact hvals.symm
  -- the regex match of the original request
  have hmatcher2 : cr.matcher = Matcher.pattern (routePre r.getFullPath) toks := by
    rw [hmatcher, if_neg hfne]
  have hmt : matcherTest cr.matcher (pathOfUrl req.url) = some caps := by
    unfold matchRouteFull at hmatch
    by_cases hm2 : jsToLower req.method = cr.methodLower
    · rw [if_pos hm2] at hmatch; exact hmatch
    · rw [if_neg hm2] at hmatch; exact absurd hmatch (by simp)
  rw [hmatcher2] at hmt
  simp only [matcherTest] at hmt
  have hsw : strStartsWith (routePre r.getFullPath) (pathOfUrl req.url) = true := by
    by_cases hsw2 : strStartsWith (routePre r.getFullPath) (pathOfUrl req.url) = true
    · exact hsw2
    · rw [if_neg hsw2] at hmt; exact absurd hmt (by simp)
  rw [if_pos hsw] at hmt
  simp only [rmatch, rmatchAux] at hmt
  obtain ⟨capsChars, hrmF, hcapsEq⟩ := Option.map_eq_some'.mp hmt
  have hsegs : (parseRouteControllerAction r).regexSegs =
      parseSegs (r.getFullPath).toList := by
    simp [parseRouteControllerAction, parseRoutePathToRegex]
  rw [hsegs] at hcs
  have hnoany := compileSegs_noAny _ _ _ hcs hplain
  have hreb := (rmatchF_rebuild _).1 toks (pathOfUrl req.url).toList capsChars hrmF hnoany
  have hlen : capsChars.length = (segNames (parseSegs (r.getFullPath).toList)).length := by
    rw [rebuild_length toks capsChars _ hreb, countGroups_compileSegs _ _ _ hcs]
  -- the parameter mapping reproduces each capture
  have hkey : ∀ (k : Nat) (n : String),
      (segNames (parseSegs (r.getFullPath).toList)).get? k = some n →
      paramMap ((parseRouteControllerAction r).parameters.map (fun p => p.getName)) vals n
        = Value.str (String.mk (capsChars.getD k [])) := by
    intro k n hkn
    have hpos : ∀ p ∈ (parseRouteControllerAction r).parameters, p.getName = n →
        p.regexPosition = some k := by
      intro p hp hpn
      rw [params_shape r p hp, hpn]
      show aListLookup (parseRoutePathToRegex r).parameterNames n = some k
      simp only [parseRoutePathToRegex, buildNames]
      rw [buildNamesAux_lookup]
      rw [lastIdxOfAux_of_nodup _ 0 k n hnodup hkn]
      simp
    obtain ⟨p0, hp0, hp0n⟩ := hcover n (List.get?_mem hkn)
    have hklt : k < capsChars.length := by
      rw [hlen]
      by_contra hlt
      rw [List.get?_eq_none.mpr (by omega)] at hkn
      exact absurd hkn (by simp)
    unfold paramMap
    rw [hvals2, List.zip_map']
    rw [objGet_map_of_mem (fun p => capRaw caps (p.regexPosition.getD 0))
      (fun p => p.getName) _ n (Value.str (String.mk (capsChars.getD k [])))
      ?_ ⟨p0, hp0, hp0n⟩]
    intro x hx hxn
    show capRaw caps (x.regexPosition.getD 0) = Value.str (String.mk (capsChars.getD k []))
    rw [hpos x hx hxn]
    simp only [Option.getD_some]
    unfold capRaw
    rw [← hcapsEq]
    cases hcg : capsChars.get? k with
    | none =>
        rw [List.get?_eq_none] at hcg
        omega
    | some cap =>
        rw [List.get?_eq_getElem?, List.getElem?_map, ← List.get?_eq_getElem?, hcg]
        simp only [Option.map_some']
        rw [show capsChars.getD k [] = (capsChars.get? k).getD [] from rfl, hcg]
        rfl
  have hsubst : substChars
      (paramMap ((parseRouteControllerAction r).parameters.map (fun p => p.getName)) vals)
      (parseSegs (r.getFullPath).toList) = (pathOfUrl req.url).toList :=
    substChars_rebuild _ _ toks capsChars _ _ hcs hplain hreb hkey
  -- the resolved URL is exactly the original path part
  have hurl : routeUrl r
      (paramMap ((parseRouteControllerAction r).parameters.map (fun p => p.getName)) vals)
      = pathOfUrl req.url := by
    simp only [routeUrl]
    rw [queryFold_eq, definedQueryEntries_nil _ _
      (fun p hp => (hall p hp).2.2)]
    simp only [List.map_nil, List.append_nil, List.isEmpty_nil, if_true]
    simp only [substSegs, hsubst]
    rfl
  constructor
  · rw [hsplitR, resolveUrlList_of_split r.name _ rpre r rpost hfirst rfl, hurl]
  · refine ⟨mkResolved cr caps (queryOfUrl (pathOfUrl req.url)) req.bodyFields, ?_, hcrr, ?_⟩
    · show dispatchGo (jsToLower req.method) (pathOfUrl (pathOfUrl req.url))
        (queryOfUrl (pathOfUrl req.url)) req.bodyFields crs = _
      rw [pathOfUrl_idem, hsplit]
      exact dispatchGo_of_split _ _ _ _ crs₁ cr crs₂ caps hfail hmatch
    · refine ⟨fun inj2 => materializeParams cr.parsedRoute caps
        (queryOfUrl (pathOfUrl req.url)) req.bodyFields inj2, ?_, ?_⟩
      · simp only [mkResolved]
        rw [if_neg (by rw [hpr]; exact hfne)]
      · simp only []
        rw [hpr, materialize_allpath _ _ _ _ _ hallPA, hvals2]

/-- C6 witness: the round trip evaluated on `GET /users/:id` with request
`/users/42?tab=posts`: resolving `userProfile` with the extracted value 42
reproduces `/users/42`, which re-matches the same route with the same
value. -/
theorem claim_C6_witness :
    (dispatchList c6crs c6req = some c6res) ∧
    (resolveUrlList [c6route] c6route.name
        (paramMap ((parseRouteControllerAction c6route).parameters.map (fun p => p.getName))
          [Value.str "42"]) = Except.ok (pathOfUrl c6req.url) ∧
      ∃ res2, dispatchList c6crs
          { method := c6req.method, url := pathOfUrl c6req.url,
            bodyFields := c6req.bodyFields } = some res2 ∧ res2.routeConfig = c6route ∧
        ∃ f2, res2.parameters = some f2 ∧
          f2 (fun _ => Value.undef) = Except.ok [Value.str "42"]) :=
  ⟨rfl, claim_C6 [c6route] c6crs c6req rfl c6res rfl c6route rfl (by decide) (by decide)
    (by decide) (by decide) [] [] rfl (by simp)
    (fun _ => Value.undef) [Value.str "42"]
    (fun inj2 => materializeParams (parseRouteControllerAction c6route) ["42"]
      (queryOfUrl c6req.url) c6req.bodyFields inj2) rfl rfl⟩
